import Mathlib

/-!
Verification of the rlo-interpreter core against its specification.

The runtime value model (`Variant`), the fixed-width integer type
(`language::IntType`), and the float type (`language::FloatType`) are not part
of the provided sources; they are modelled from the specification (§3): the
integer type is a 64-bit signed machine integer, the float type an IEEE754
double.  Floats are modelled as exact rationals, which agrees with IEEE754
arithmetic on all the (small, exactly representable) values appearing in the
claims.  Everything else in this section is translated from
`src/runtime/ops.rs`.
-/

/-! ## Machine integers (i64), modelled from the spec -/

/-- Modelled from the spec: `language::IntType` is a fixed-width signed
integer (64-bit).  Smallest representable value. -/
def intMin : Int := -(2 ^ 63)

/-- Largest representable `IntType` value. -/
def intMax : Int := 2 ^ 63 - 1

/-- The value `z` fits in the fixed integer width. -/
def inRange64 (z : Int) : Prop := intMin ≤ z ∧ z ≤ intMax

instance (z : Int) : Decidable (inRange64 z) := by
  unfold inRange64; infer_instance

/-- Two's-complement wraparound at 64 bits (Rust `wrapping_*` semantics). -/
def wrap64 (z : Int) : Int := (z + 2 ^ 63) % 2 ^ 64 - 2 ^ 63

/-- Unsigned 64-bit (two's-complement) representation of `z`. -/
def toU64 (z : Int) : Nat := (z % 2 ^ 64).toNat

/-- Interpret an unsigned 64-bit representation as a signed value. -/
def ofU64 (n : Nat) : Int := wrap64 n

/-- Rust `&` on `i64`, via the two's-complement bit representation. -/
def i64_and (a b : Int) : Int := ofU64 (Nat.land (toU64 a) (toU64 b))

/-- Rust `^` on `i64`. -/
def i64_xor (a b : Int) : Int := ofU64 (Nat.xor (toU64 a) (toU64 b))

/-- Rust `|` on `i64`. -/
def i64_or (a b : Int) : Int := ofU64 (Nat.lor (toU64 a) (toU64 b))

/-- Rust `i64::overflowing_add`. -/
def overflowing_add (a b : Int) : Int × Bool :=
  (wrap64 (a + b), decide (wrap64 (a + b) ≠ a + b))

/-- Rust `i64::overflowing_sub`. -/
def overflowing_sub (a b : Int) : Int × Bool :=
  (wrap64 (a - b), decide (wrap64 (a - b) ≠ a - b))

/-- Rust `i64::overflowing_mul`. -/
def overflowing_mul (a b : Int) : Int × Bool :=
  (wrap64 (a * b), decide (wrap64 (a * b) ≠ a * b))

/-- Rust `i64::overflowing_div`: value is `wrapping_div` (truncated division,
wrapped), the flag is set exactly for `MIN / -1`.  The zero-divisor panic is
handled by the caller (`int_div`). -/
def overflowing_div (a b : Int) : Int × Bool :=
  (wrap64 (a.tdiv b), decide (a = intMin ∧ b = -1))

/-- Rust `i64::overflowing_shl`: shift amount is masked to 6 bits, flag set
when the requested amount is ≥ 64. -/
def overflowing_shl (a : Int) (s : Nat) : Int × Bool :=
  (wrap64 (a * 2 ^ (s % 64)), decide (64 ≤ s))

/-- Rust `i64::overflowing_shr` (arithmetic shift = floor division by a power
of two): shift amount masked to 6 bits, flag set when the amount is ≥ 64. -/
def overflowing_shr (a : Int) (s : Nat) : Int × Bool :=
  (Int.fdiv a (2 ^ (s % 64)), decide (64 ≤ s))

/-- Truncation toward zero on rationals (used to model `f64 %`). -/
def ratTrunc (q : Rat) : Int := if 0 ≤ q then ⌊q⌋ else -⌊-q⌋

/-! ## Runtime values and evaluator outcomes -/

/-- Modelled from the spec (§3): the tagged-union runtime value type
`Variant` from the missing `src/runtime/variant.rs` (constructors as matched
by `src/runtime/ops.rs`).  Floats are modelled as exact rationals. -/
inductive Variant : Type where
  | Nil
  | EmptyTuple
  | BoolTrue
  | BoolFalse
  | Integer (value : Int)
  | Float (value : Rat)
  | InternStr (sym : Nat)
  | GCObject (handle : Nat)
deriving DecidableEq, Repr

/-- `impl From<bool> for Variant`. -/
def Variant.ofBool : Bool → Variant
  | true => .BoolTrue
  | false => .BoolFalse

/-- Modelled from the spec: numeric coercion to float (`Variant::float_value`
from the missing `variant.rs`); only ever applied to arithmetic primitives. -/
def Variant.float_value : Variant → Rat
  | .Integer v => (v : Rat)
  | .Float v => v
  | _ => 0

/-- Modelled from the spec and the comments in `ops.rs`
(`Variant::bit_value` from the missing `variant.rs`): booleans are all-ones /
all-zeros bit patterns; only ever applied to bitwise primitives. -/
def Variant.bit_value : Variant → Int
  | .BoolTrue => -1
  | .BoolFalse => 0
  | .Integer v => v
  | _ => 0

/-- Modelled from the spec: the recoverable evaluator error kinds used by
`ops.rs` (from the missing `src/runtime/errors.rs`). -/
inductive EvalErrorKind : Type where
  | OverflowError
  | NegativeShiftCount
deriving DecidableEq, Repr

/-- Result of a Rust evaluator function: `fatal` models a Rust panic (native
fault), `error` a recoverable `Err(EvalError)`, `ok` a normal return. -/
inductive EvalOutcome (α : Type) : Type where
  | fatal
  | error (e : EvalErrorKind)
  | ok (value : α)
deriving DecidableEq, Repr

def EvalOutcome.map (f : α → β) : EvalOutcome α → EvalOutcome β
  | .fatal => .fatal
  | .error e => .error e
  | .ok v => .ok (f v)

/-! ## `src/runtime/ops.rs` -/

/-- `ops::is_arithmetic_primitive`. -/
def is_arithmetic_primitive : Variant → Bool
  | .Integer _ | .Float _ => true
  | _ => false

/-- `ops::is_bitwise_primitive`. -/
def is_bitwise_primitive : Variant → Bool
  | .BoolTrue | .BoolFalse | .Integer _ => true
  | _ => false

/-- The `checked_int_math!` macro: overflow flag set means `OverflowError`. -/
def checked_int_math : Int × Bool → EvalOutcome Variant
  | (value, false) => .ok (.Integer value)
  | (_, true) => .error .OverflowError

/-- `ops::eval_eq`. -/
def eval_eq (lhs rhs : Variant) : Bool :=
  match lhs, rhs with
  -- nil always compares false
  | .Nil, _ => false
  | _, .Nil => false
  -- empty tuple is only equal with itself
  | .EmptyTuple, .EmptyTuple => true
  | .BoolTrue, .BoolTrue => true
  | .BoolFalse, .BoolFalse => true
  | .InternStr a, .InternStr b => decide (a = b)
  -- numeric equality
  | .Integer a, .Integer b => decide (a = b)
  | l, r =>
    if is_arithmetic_primitive l && is_arithmetic_primitive r then
      decide (l.float_value = r.float_value)
    else false

/-- `ops::eval_ne`. -/
def eval_ne (lhs rhs : Variant) : Bool := !eval_eq lhs rhs

/-- `ops::int_mul`. -/
def int_mul (lhs rhs : Int) : EvalOutcome Variant :=
  checked_int_math (overflowing_mul lhs rhs)

/-- `ops::float_mul`. -/
def float_mul (lhs rhs : Rat) : EvalOutcome Variant := .ok (.Float (lhs * rhs))

/-- `ops::int_div`; `overflowing_div` panics on a zero divisor. -/
def int_div (lhs rhs : Int) : EvalOutcome Variant :=
  if rhs = 0 then .fatal
  else checked_int_math (overflowing_div lhs rhs)

/-- `ops::float_div` (exact rational division; IEEE infinities are outside
the model and outside every claim). -/
def float_div (lhs rhs : Rat) : EvalOutcome Variant := .ok (.Float (lhs / rhs))

/-- `ops::int_mod`: Rust `%` panics on a zero divisor and on `MIN % -1`. -/
def int_mod (lhs rhs : Int) : EvalOutcome Variant :=
  if rhs = 0 then .fatal
  else if lhs = intMin ∧ rhs = -1 then .fatal
  else .ok (.Integer (lhs.tmod rhs))

/-- `ops::float_mod` (truncated remainder, as Rust `f64 %`). -/
def float_mod (lhs rhs : Rat) : EvalOutcome Variant :=
  .ok (.Float (lhs - rhs * (ratTrunc (lhs / rhs) : Rat)))

/-- `ops::int_add`. -/
def int_add (lhs rhs : Int) : EvalOutcome Variant :=
  checked_int_math (overflowing_add lhs rhs)

/-- `ops::float_add`. -/
def float_add (lhs rhs : Rat) : EvalOutcome Variant := .ok (.Float (lhs + rhs))

/-- `ops::int_sub`. -/
def int_sub (lhs rhs : Int) : EvalOutcome Variant :=
  checked_int_math (overflowing_sub lhs rhs)

/-- `ops::float_sub`. -/
def float_sub (lhs rhs : Rat) : EvalOutcome Variant := .ok (.Float (lhs - rhs))

/-- Body of the `eval_binary_arithmetic!` macro. -/
def eval_binary_arithmetic (int_name : Int → Int → EvalOutcome Variant)
    (float_name : Rat → Rat → EvalOutcome Variant)
    (lhs rhs : Variant) : EvalOutcome (Option Variant) :=
  match lhs, rhs with
  | .Integer a, .Integer b => (int_name a b).map some
  | l, r =>
    if is_arithmetic_primitive l && is_arithmetic_primitive r then
      (float_name l.float_value r.float_value).map some
    else .ok none

/-- `ops::eval_mul`. -/
def eval_mul : Variant → Variant → EvalOutcome (Option Variant) :=
  eval_binary_arithmetic int_mul float_mul

/-- `ops::eval_div`. -/
def eval_div : Variant → Variant → EvalOutcome (Option Variant) :=
  eval_binary_arithmetic int_div float_div

/-- `ops::eval_mod`. -/
def eval_mod : Variant → Variant → EvalOutcome (Option Variant) :=
  eval_binary_arithmetic int_mod float_mod

/-- `ops::eval_add`. -/
def eval_add : Variant → Variant → EvalOutcome (Option Variant) :=
  eval_binary_arithmetic int_add float_add

/-- `ops::eval_sub`. -/
def eval_sub : Variant → Variant → EvalOutcome (Option Variant) :=
  eval_binary_arithmetic int_sub float_sub

/-- `ops::bool_and` / `ops::int_and`. -/
def bool_and (lhs rhs : Bool) : Variant := .ofBool (lhs && rhs)
def int_and (lhs rhs : Int) : Variant := .Integer (i64_and lhs rhs)

/-- `ops::bool_xor` / `ops::int_xor`. -/
def bool_xor (lhs rhs : Bool) : Variant := .ofBool (Bool.xor lhs rhs)
def int_xor (lhs rhs : Int) : Variant := .Integer (i64_xor lhs rhs)

/-- `ops::bool_or` / `ops::int_or`. -/
def bool_or (lhs rhs : Bool) : Variant := .ofBool (lhs || rhs)
def int_or (lhs rhs : Int) : Variant := .Integer (i64_or lhs rhs)

/-- Body of the `eval_binary_bitwise!` macro. -/
def eval_binary_bitwise (bool_name : Bool → Bool → Variant)
    (int_name : Int → Int → Variant) (lhs rhs : Variant) : Option Variant :=
  match lhs, rhs with
  | .BoolTrue, .BoolTrue => some (bool_name true true)
  | .BoolTrue, .BoolFalse => some (bool_name true false)
  | .BoolFalse, .BoolTrue => some (bool_name false true)
  | .BoolFalse, .BoolFalse => some (bool_name false false)
  | l, r =>
    if is_bitwise_primitive l && is_bitwise_primitive r then
      some (int_name l.bit_value r.bit_value)
    else none

/-- `ops::eval_and`. -/
def eval_and : Variant → Variant → Option Variant :=
  eval_binary_bitwise bool_and int_and

/-- `ops::eval_xor`. -/
def eval_xor : Variant → Variant → Option Variant :=
  eval_binary_bitwise bool_xor int_xor

/-- `ops::eval_or`. -/
def eval_or : Variant → Variant → Option Variant :=
  eval_binary_bitwise bool_or int_or

/-- `ops::int_shl`; `rhs.try_into().unwrap()` panics when the (non-negative)
shift amount exceeds `u32::MAX`. -/
def int_shl (lhs rhs : Int) : EvalOutcome Variant :=
  if rhs < 0 then .error .NegativeShiftCount
  else if 4294967295 < rhs then .fatal
  else checked_int_math (overflowing_shl lhs rhs.toNat)

/-- `ops::int_shr`. -/
def int_shr (lhs rhs : Int) : EvalOutcome Variant :=
  if rhs < 0 then .error .NegativeShiftCount
  else if 4294967295 < rhs then .fatal
  else checked_int_math (overflowing_shr lhs rhs.toNat)

/-- Body of the `eval_binary_shift!` macro. -/
def eval_binary_shift (int_name : Int → Int → EvalOutcome Variant)
    (lhs rhs : Variant) : EvalOutcome (Option Variant) :=
  match rhs with
  | .Integer shift =>
    if is_bitwise_primitive lhs then (int_name lhs.bit_value shift).map some
    else .ok none
  | .BoolTrue =>
    if is_bitwise_primitive lhs then (int_name lhs.bit_value 1).map some
    else .ok none
  | .BoolFalse =>
    if is_bitwise_primitive lhs then .ok (some lhs) -- no-op
    else .ok none
  | _ => .ok none

/-- `ops::eval_shl`. -/
def eval_shl : Variant → Variant → EvalOutcome (Option Variant) :=
  eval_binary_shift int_shl

/-- `ops::eval_shr`. -/
def eval_shr : Variant → Variant → EvalOutcome (Option Variant) :=
  eval_binary_shift int_shr


/-!
## `src/codegen/scope.rs` — scope and upvalue tracking

Index widths: `LocalIndex` and `UpvalueIndex` are not in the provided
sources (`codegen/opcodes.rs` is missing); modelled from the spec as 16-bit
indices.  `DeclType` (from the missing `parser/lvalue.rs`) is modelled from
the spec as the declared mutability; `Label`, `DebugSymbol` and `JumpSite`
are opaque and modelled as naturals.

Rust `Vec` stacks (scopes within a frame, frames within the tracker) are
modelled as lists with the *top of the stack at the head*, so Rust's
`iter().rev()` name-resolution order (`iter_nro`) is plain head-to-tail
iteration here.  `Vec::push` therefore conses at the head, while the
`locals` and `upvalues` vectors, which Rust iterates front-to-back, keep
their source order (append at the tail).
-/

/-- Modelled from the spec: declared mutability of a binding
(`parser::lvalue::DeclType`). -/
inductive DeclType : Type where
  | Immutable
  | Mutable
deriving DecidableEq, Repr

/-- Largest `LocalIndex` value (16-bit index width, modelled from the spec). -/
def localIndexMax : Nat := 65535

/-- Number of distinct `UpvalueIndex` values (16-bit width): creating an
upvalue fails once a frame already holds this many. -/
def upvalueLimit : Nat := 65536

/-- `scope::LocalName`. -/
inductive LocalName : Type where
  | Symbol (sym : Nat)
  | Receiver
  | NArgs
deriving DecidableEq, Repr

/-- `codegen::errors::ErrorKind` (file missing from the sources): the
internal-limit compile error kind used by `scope.rs`, modelled from the
spec. -/
inductive ErrorKind : Type where
  | InternalLimit (msg : String)
deriving DecidableEq, Repr

/-- `scope::Local`. -/
structure Local : Type where
  decl : DeclType
  name : LocalName
  index : Nat
  captured : Bool
deriving DecidableEq, Repr

/-- `scope::InsertLocal`. -/
inductive InsertLocal : Type where
  | CreateNew
  | HideExisting (index : Nat)
deriving DecidableEq, Repr

/-- `scope::ScopeTag`. -/
inductive ScopeTag : Type where
  | Block
  | Loop
  | Branch
  | Function
deriving DecidableEq, Repr

/-- `scope::ControlFlowTarget`. -/
inductive ControlFlowTarget : Type where
  | Break (label : Option Nat)
  | Continue (label : Option Nat)
deriving DecidableEq, Repr

/-- `ControlFlowTarget::label`. -/
def ControlFlowTarget.label : ControlFlowTarget → Option Nat
  | .Break l => l
  | .Continue l => l

/-- `ScopeTag::accepts_control_flow`: `Block` accepts only break, `Loop`
accepts break and continue, everything else accepts neither. -/
def ScopeTag.accepts_control_flow : ScopeTag → ControlFlowTarget → Bool
  | .Block, .Break _ => true
  | .Loop, .Break _ => true
  | .Loop, .Continue _ => true
  | _, _ => false

/-- `scope::ControlFlowTracker`. -/
structure ControlFlowTracker : Type where
  label : Option Nat
  continue_target : Option Nat
  break_sites : List Nat
deriving DecidableEq, Repr

/-- `ControlFlowTracker::new`. -/
def ControlFlowTracker.new (label : Option Nat) : ControlFlowTracker :=
  ⟨label, none, []⟩

/-- `scope::Scope`. -/
structure Scope : Type where
  tag : ScopeTag
  depth : Nat
  symbol : Option Nat
  prev_index : Option Nat
  locals : List Local
  control_flow : ControlFlowTracker
deriving DecidableEq, Repr

/-- `Vec::iter().find` over a locals vector (`Scope::find_local`). -/
def find_local_in (name : LocalName) : List Local → Option Local
  | [] => none
  | l :: ls => if l.name = name then some l else find_local_in name ls

/-- In-place update of the first matching local's `decl`
(`Scope::insert_local`, redeclare branch). -/
def redeclare_in (decl : DeclType) (name : LocalName) : List Local → List Local
  | [] => []
  | l :: ls =>
    if l.name = name then { l with decl := decl } :: ls
    else l :: redeclare_in decl name ls

/-- In-place update of the first matching local's `captured` flag (the
`local.captured = true` assignment in `CallFrame::create_upval_for_local`). -/
def set_captured_in (name : LocalName) : List Local → List Local
  | [] => []
  | l :: ls =>
    if l.name = name then { l with captured := true } :: ls
    else l :: set_captured_in name ls

/-- `Scope::last_index`. -/
def Scope.last_index (s : Scope) : Option Nat :=
  match s.locals.getLast? with
  | some l => some l.index
  | none => s.prev_index

/-- `Scope::find_local`. -/
def Scope.find_local (s : Scope) (name : LocalName) : Option Local :=
  find_local_in name s.locals

/-- `Scope::push_local`: the new slot is one past `last_index` (checked u16
addition), or 0 for the first slot. -/
def Scope.push_local (s : Scope) (decl : DeclType) (name : LocalName) :
    Except ErrorKind (Scope × Local) :=
  match s.last_index with
  | none =>
    let l : Local := ⟨decl, name, 0, false⟩
    .ok ({ s with locals := s.locals ++ [l] }, l)
  | some i =>
    if i = localIndexMax then
      .error (.InternalLimit "local variable limit reached")
    else
      let l : Local := ⟨decl, name, i + 1, false⟩
      .ok ({ s with locals := s.locals ++ [l] }, l)

/-- `Scope::insert_local`: redeclare in place when the name already exists
in this scope, otherwise push a new slot. -/
def Scope.insert_local (s : Scope) (decl : DeclType) (name : LocalName) :
    Except ErrorKind (Scope × InsertLocal) :=
  match s.find_local name with
  | some l =>
    .ok ({ s with locals := redeclare_in decl name s.locals }, .HideExisting l.index)
  | none =>
    match s.push_local decl name with
    | .error e => .error e
    | .ok (s', _) => .ok (s', .CreateNew)

/-- `scope::NestedScopes`: scope stack, innermost scope at the head. -/
structure NestedScopes : Type where
  scopes : List Scope
deriving DecidableEq, Repr

/-- `NestedScopes::new`. -/
def NestedScopes.new : NestedScopes := ⟨[]⟩

/-- `NestedScopes::is_empty`. -/
def NestedScopes.is_empty (ns : NestedScopes) : Bool := ns.scopes.isEmpty

/-- `NestedScopes::current_scope`. -/
def NestedScopes.current_scope (ns : NestedScopes) : Option Scope := ns.scopes.head?

/-- `NestedScopes::push_scope`: the new scope remembers the enclosing
scope's `last_index` and its own nesting depth. -/
def NestedScopes.push_scope (ns : NestedScopes) (symbol : Option Nat)
    (tag : ScopeTag) (label : Option Nat) : NestedScopes :=
  let prev_index :=
    match ns.scopes.head? with
    | some s => s.last_index
    | none => none
  ⟨{ tag := tag, depth := ns.scopes.length, symbol := symbol,
     prev_index := prev_index, locals := [],
     control_flow := ControlFlowTracker.new label } :: ns.scopes⟩

/-- Name resolution across a scope stack, innermost-first
(`iter_nro().find_map(find_local)`). -/
def find_local_scopes (name : LocalName) : List Scope → Option Local
  | [] => none
  | s :: rest =>
    match s.find_local name with
    | some l => some l
    | none => find_local_scopes name rest

/-- Set the `captured` flag of the first local found in name-resolution
order (the flag update applied through the `&mut Local` that
`iter_nro_mut().find_map(find_local_mut)` hands to
`create_upval_for_local`). -/
def set_captured_scopes (name : LocalName) : List Scope → List Scope
  | [] => []
  | s :: rest =>
    match s.find_local name with
    | some _ => { s with locals := set_captured_in name s.locals } :: rest
    | none => s :: set_captured_scopes name rest

/-- Innermost-first name resolution in a `NestedScopes`. -/
def NestedScopes.find_local (ns : NestedScopes) (name : LocalName) : Option Local :=
  find_local_scopes name ns.scopes

/-- Mark the resolved local as captured (see `set_captured_scopes`). -/
def NestedScopes.set_captured (ns : NestedScopes) (name : LocalName) : NestedScopes :=
  ⟨set_captured_scopes name ns.scopes⟩

/-- `NestedScopes::insert_local` as called through
`ScopeTracker::insert_local`: `none` models the
`expect("insert local in global scope")` panic on an empty scope stack. -/
def NestedScopes.insert_local (ns : NestedScopes) (decl : DeclType)
    (name : LocalName) : Option (Except ErrorKind (NestedScopes × InsertLocal)) :=
  match ns.scopes with
  | [] => none
  | s :: rest =>
    match s.insert_local decl name with
    | .error e => some (.error e)
    | .ok (s', r) => some (.ok (⟨s' :: rest⟩, r))

/-- `codegen::funproto::UpvalueTarget` (file missing from the sources,
modelled from its use in `scope.rs`): an upvalue targets either a local
slot of the immediately enclosing frame or an upvalue of that frame. -/
inductive UpvalueTarget : Type where
  | Local (index : Nat)
  | Upvalue (index : Nat)
deriving DecidableEq, Repr

/-- `scope::Upvalue`. -/
structure Upvalue : Type where
  decl : DeclType
  name : LocalName
  index : Nat
  target : UpvalueTarget
deriving DecidableEq, Repr

/-- `Vec::iter().find` over an upvalue vector (`CallFrame::find_upval`). -/
def find_upval_in (name : LocalName) : List Upvalue → Option Upvalue
  | [] => none
  | u :: us => if u.name = name then some u else find_upval_in name us

/-- `scope::CallFrame`. -/
structure CallFrame : Type where
  scopes : NestedScopes
  upvalues : List Upvalue
deriving DecidableEq, Repr

/-- `CallFrame::new`: a fresh frame starts with one `Function` scope. -/
def CallFrame.new (symbol : Option Nat) : CallFrame :=
  ⟨NestedScopes.new.push_scope symbol .Function none, []⟩

/-- `CallFrame::find_upval`. -/
def CallFrame.find_upval (f : CallFrame) (name : LocalName) : Option Upvalue :=
  find_upval_in name f.upvalues

/-- `CallFrame::create_upval_for_local`: fails when the upvalue index width
is exhausted; the new upvalue targets the local's slot.  (The `captured`
flag update on the local is applied by the caller via `set_captured`, and
only on success, exactly as in the source.) -/
def CallFrame.create_upval_for_local (f : CallFrame) (l : Local) :
    Except ErrorKind (CallFrame × Nat) :=
  if upvalueLimit ≤ f.upvalues.length then
    .error (.InternalLimit "upvalue limit reached")
  else
    let index := f.upvalues.length
    .ok ({ f with upvalues := f.upvalues ++ [⟨l.decl, l.name, index, .Local l.index⟩] },
         index)

/-- `CallFrame::create_upval_for_upval`: chains to an upvalue of the
immediately enclosing frame. -/
def CallFrame.create_upval_for_upval (f : CallFrame) (up : Upvalue) :
    Except ErrorKind (CallFrame × Nat) :=
  if upvalueLimit ≤ f.upvalues.length then
    .error (.InternalLimit "upvalue limit reached")
  else
    let index := f.upvalues.length
    .ok ({ f with upvalues := f.upvalues ++ [⟨up.decl, up.name, index, .Upvalue up.index⟩] },
         index)

/-- `scope::ScopeTracker`: the innermost call frame is at the head of
`frames`. -/
structure ScopeTracker : Type where
  toplevel : NestedScopes
  frames : List CallFrame
deriving DecidableEq, Repr

/-- `ScopeTracker::new`. -/
def ScopeTracker.new : ScopeTracker := ⟨NestedScopes.new, []⟩

/-- `ScopeTracker::is_global_frame`. -/
def ScopeTracker.is_global_frame (t : ScopeTracker) : Bool := t.frames.isEmpty

/-- `ScopeTracker::push_frame`. -/
def ScopeTracker.push_frame (t : ScopeTracker) (symbol : Option Nat) : ScopeTracker :=
  { t with frames := CallFrame.new symbol :: t.frames }

/-- `ScopeTracker::local_scopes`: the current frame's scope stack, or the
toplevel scopes outside any frame. -/
def ScopeTracker.local_scopes (t : ScopeTracker) : NestedScopes :=
  match t.frames with
  | [] => t.toplevel
  | f :: _ => f.scopes

/-- `ScopeTracker::push_scope`. -/
def ScopeTracker.push_scope (t : ScopeTracker) (symbol : Option Nat)
    (tag : ScopeTag) (label : Option Nat) : ScopeTracker :=
  match t.frames with
  | [] => { t with toplevel := t.toplevel.push_scope symbol tag label }
  | f :: fs =>
    { t with frames := { f with scopes := f.scopes.push_scope symbol tag label } :: fs }

/-- `ScopeTracker::insert_local`: `none` models the panic when there is no
current scope. -/
def ScopeTracker.insert_local (t : ScopeTracker) (decl : DeclType)
    (name : LocalName) : Option (Except ErrorKind (ScopeTracker × InsertLocal)) :=
  match t.frames with
  | [] =>
    match t.toplevel.insert_local decl name with
    | none => none
    | some (.error e) => some (.error e)
    | some (.ok (ns, r)) => some (.ok ({ t with toplevel := ns }, r))
  | f :: fs =>
    match f.scopes.insert_local decl name with
    | none => none
    | some (.error e) => some (.error e)
    | some (.ok (ns, r)) =>
      some (.ok ({ t with frames := { f with scopes := ns } :: fs }, r))

/-- `ScopeTracker::resolve_local`. -/
def ScopeTracker.resolve_local (t : ScopeTracker) (name : LocalName) : Option Local :=
  t.local_scopes.find_local name

/-- `ScopeTracker::resolve_upval_helper`, recursing outward over the
enclosing frames.  Arguments: the (unchanged) toplevel scopes, the frame
under consideration, and the frames enclosing it (innermost first; the
enclosing lexical scopes are the head frame's, or the toplevel scopes when
none remain).  Returns the updated toplevel, updated frame, updated
enclosing frames, and the upvalue index resolved in the considered frame.
The Rust `enclosing_frame.upvalues()[idx]` indexing is modelled with
`List.get?`; the index is in bounds by construction, so the `none` fallback
arm is unreachable. -/
def resolve_upval_helper (name : LocalName) :
    NestedScopes → CallFrame → List CallFrame →
    Except ErrorKind (NestedScopes × CallFrame × List CallFrame × Option Nat)
  | toplevel, cur, [] =>
    -- check if the upvalue already exists in the current frame
    match cur.find_upval name with
    | some up => .ok (toplevel, cur, [], some up.index)
    | none =>
      -- outermost frame: the enclosing scopes are the toplevel scopes
      match toplevel.find_local name with
      | some l =>
        match cur.create_upval_for_local l with
        | .error e => .error e
        | .ok (cur', idx) => .ok (toplevel.set_captured name, cur', [], some idx)
      | none => .ok (toplevel, cur, [], none)
  | toplevel, cur, encl :: rest =>
    match cur.find_upval name with
    | some up => .ok (toplevel, cur, encl :: rest, some up.index)
    | none =>
      -- check if the local name exists in the enclosing frame's scopes
      match encl.scopes.find_local name with
      | some l =>
        match cur.create_upval_for_local l with
        | .error e => .error e
        | .ok (cur', idx) =>
          .ok (toplevel, cur', { encl with scopes := encl.scopes.set_captured name } :: rest,
               some idx)
      | none =>
        -- recurse: create the upvalue chain in the enclosing frames first
        match resolve_upval_helper name toplevel encl rest with
        | .error e => .error e
        | .ok (toplevel', encl', rest', idx?) =>
          match idx? with
          | some idx =>
            match encl'.upvalues.get? idx with
            | some up =>
              match cur.create_upval_for_upval up with
              | .error e => .error e
              | .ok (cur', i) => .ok (toplevel', cur', encl' :: rest', some i)
            | none => .ok (toplevel', cur, encl' :: rest', none) -- unreachable
          | none => .ok (toplevel', cur, encl' :: rest', none)

/-- `ScopeTracker::resolve_or_create_upval`.  The returned upvalue is the
current frame's entry at the resolved index (in bounds by construction,
modelled with `List.get?` via `Option.bind`). -/
def ScopeTracker.resolve_or_create_upval (t : ScopeTracker) (name : LocalName) :
    Except ErrorKind (ScopeTracker × Option Upvalue) :=
  match t.frames with
  | [] => .ok (t, none)
  | cur :: rest =>
    match resolve_upval_helper name t.toplevel cur rest with
    | .error e => .error e
    | .ok (toplevel', cur', rest', idx?) =>
      .ok ({ toplevel := toplevel', frames := cur' :: rest' },
           idx?.bind fun idx => cur'.upvalues.get? idx)

/-- The `find_map` search in `ScopeTracker::resolve_control_flow`: the
nearest scope (innermost first) whose tag accepts the request and whose
label matches (an unlabeled request matches any accepting scope). -/
def find_control_flow (target : ControlFlowTarget) : List Scope → Option Scope
  | [] => none
  | s :: rest =>
    if s.tag.accepts_control_flow target
        && (target.label.isNone || target.label == s.control_flow.label) then
      some s
    else find_control_flow target rest

/-- `ScopeTracker::resolve_control_flow`: searches the current frame's
scopes only. -/
def ScopeTracker.resolve_control_flow (t : ScopeTracker) (target : ControlFlowTarget) :
    Option Scope :=
  find_control_flow target t.local_scopes.scopes

/-!
## `src/codegen.rs` — bytecode compiler

`codegen/chunk.rs`, `codegen/opcodes.rs`, `codegen/errors.rs`,
`parser/stmt.rs` and `runtime/types/operator.rs` are not in the provided
sources; the opcode set, the statement type and the operator tags are
modelled from their use sites in `codegen.rs`, and the constant pool from
the spec (§3, §4.2): a deduplicated push-ordered list addressed by an 8-bit
or 16-bit index.  Since the concrete byte encoding of opcodes is unknown,
the instruction stream is modelled as a list of tagged bytes (an opcode
byte or a literal operand byte).  `unimplemented!()` arms are modelled as
the `fatal` outcome (a Rust panic); constructor payloads of arms whose
compilation is `unimplemented!()` are dropped, as no behavior depends on
them.
-/

/-- `codegen::opcodes::OpCode` (modelled from its use in `codegen.rs`). -/
inductive OpCode : Type where
  | Nil | Empty | True | False
  | LoadConst | LoadConst16
  | Neg | Pos | Inv | Not
  | Mul | Div | Mod | Add | Sub
  | And | Xor | Or
  | Shl | Shr
  | LT | GT | LE | GE | EQ | NE
deriving DecidableEq, Repr

/-- One byte of the instruction stream: an opcode byte or a literal operand
byte. -/
inductive ChunkByte : Type where
  | op (opcode : OpCode)
  | lit (byte : Nat)
deriving DecidableEq, Repr

/-- Modelled from the spec: the bytecode `Chunk` (instructions plus
constant pool; the string interner is opaque and elided). -/
structure Chunk : Type where
  consts : List Variant
  bytes : List ChunkByte
deriving DecidableEq, Repr

/-- `codegen::errors::CompileError` (file missing from the sources):
an error kind plus an optional attached debug symbol. -/
structure CompileError : Type where
  kind : ErrorKind
  symbol : Option Nat
deriving DecidableEq, Repr

/-- `CompileError::with_symbol`. -/
def CompileError.with_symbol (e : CompileError) (symbol : Nat) : CompileError :=
  { e with symbol := some symbol }

/-- Index of the first occurrence of `v` in the constant pool. -/
def const_index_of (v : Variant) : List Variant → Option Nat
  | [] => none
  | x :: xs => if x == v then some 0 else (const_index_of v xs).map (· + 1)

/-- Modelled from the spec: `Chunk::push_const` returns the pool index of
the value, deduplicating against already-pushed constants, and fails with a
recoverable internal-limit error when the pool would exceed its 16-bit
index width. -/
def Chunk.push_const (c : Chunk) (value : Variant) : Except CompileError (Chunk × Nat) :=
  match const_index_of value c.consts with
  | some cid => .ok (c, cid)
  | none =>
    if 65536 ≤ c.consts.length then
      .error ⟨.InternalLimit "constant pool limit reached", none⟩
    else
      .ok ({ c with consts := c.consts ++ [value] }, c.consts.length)

/-- `codegen::Program`: bytecode chunk plus the parallel debug-symbol
table (one entry per instruction). -/
structure Program : Type where
  bytecode : Chunk
  symbols : List Nat
deriving DecidableEq, Repr

/-- `codegen::CodeGenerator`. -/
structure CodeGenerator : Type where
  program : Program
  errors : List CompileError
deriving DecidableEq, Repr

/-- `CodeGenerator::new`. -/
def CodeGenerator.new : CodeGenerator := ⟨⟨⟨[], []⟩, []⟩, []⟩

/-- `CodeGenerator::emit_instr`: one debug symbol entry and one opcode
byte.  (In the source this returns `CompileResult<()>` but never fails.) -/
def CodeGenerator.emit_instr (g : CodeGenerator) (symbol : Nat) (opcode : OpCode) :
    CodeGenerator :=
  { g with program :=
    { bytecode := { g.program.bytecode with
                    bytes := g.program.bytecode.bytes ++ [.op opcode] },
      symbols := g.program.symbols ++ [symbol] } }

/-- `CodeGenerator::emit_single`: one debug symbol entry, one opcode byte
and one operand byte. -/
def CodeGenerator.emit_single (g : CodeGenerator) (symbol : Nat) (opcode : OpCode)
    (byte : Nat) : CodeGenerator :=
  { g with program :=
    { bytecode := { g.program.bytecode with
                    bytes := g.program.bytecode.bytes ++ [.op opcode, .lit byte] },
      symbols := g.program.symbols ++ [symbol] } }

/-- `CodeGenerator::emit_multi` at `N = 2` (the only width used): one debug
symbol entry, one opcode byte and two operand bytes (little-endian). -/
def CodeGenerator.emit_multi2 (g : CodeGenerator) (symbol : Nat) (opcode : OpCode)
    (lo hi : Nat) : CodeGenerator :=
  { g with program :=
    { bytecode := { g.program.bytecode with
                    bytes := g.program.bytecode.bytes ++ [.op opcode, .lit lo, .lit hi] },
      symbols := g.program.symbols ++ [symbol] } }

/-- Outcome of a `CodeGenerator` compile method: `fatal` models an
`unimplemented!()` panic; `error` carries the mutated generator state
alongside the `CompileError` (Rust `&mut self` keeps partial emissions). -/
inductive CompileOutcome : Type where
  | fatal
  | error (gen : CodeGenerator) (e : CompileError)
  | ok (gen : CodeGenerator)
deriving DecidableEq, Repr

/-- `CodeGenerator::emit_const`: push the constant, then emit the narrow
(8-bit index) load when the index fits in a byte, the wide (16-bit,
little-endian) load otherwise. -/
def CodeGenerator.emit_const (g : CodeGenerator) (symbol : Nat) (value : Variant) :
    CompileOutcome :=
  match g.program.bytecode.push_const value with
  | .error e => .error g (e.with_symbol symbol)
  | .ok (chunk, cid) =>
    let g := { g with program := { g.program with bytecode := chunk } }
    if cid ≤ 255 then .ok (g.emit_single symbol .LoadConst cid)
    else .ok (g.emit_multi2 symbol .LoadConst16 (cid % 256) (cid / 256))

/-- `runtime::types::operator::UnaryOp` (modelled from its use sites). -/
inductive UnaryOp : Type where
  | Neg | Pos | Inv | Not
deriving DecidableEq, Repr

/-- `operator::Logical` (modelled; compilation is `unimplemented!()`). -/
inductive Logical : Type where
  | And | Or
deriving DecidableEq, Repr

/-- `operator::Arithmetic`. -/
inductive Arithmetic : Type where
  | Mul | Div | Mod | Add | Sub
deriving DecidableEq, Repr

/-- `operator::Bitwise`. -/
inductive Bitwise : Type where
  | And | Xor | Or
deriving DecidableEq, Repr

/-- `operator::Shift`. -/
inductive Shift : Type where
  | Left | Right
deriving DecidableEq, Repr

/-- `operator::Comparison`. -/
inductive Comparison : Type where
  | LT | GT | LE | GE | EQ | NE
deriving DecidableEq, Repr

/-- `operator::BinaryOp`. -/
inductive BinaryOp : Type where
  | Logical (op : Logical)
  | Arithmetic (op : Arithmetic)
  | Bitwise (op : Bitwise)
  | Shift (op : Shift)
  | Comparison (op : Comparison)
deriving DecidableEq, Repr

mutual

/-- `parser::primary::Atom` as consumed by `codegen.rs`. -/
inductive Atom : Type where
  | Nil
  | EmptyTuple
  | BooleanLiteral (value : Bool)
  | IntegerLiteral (value : Int)
  | FloatLiteral (value : Rat)
  | StringLiteral (sym : Nat)
  | Identifier (sym : Nat)
  | Group (expr : Expr)

/-- `parser::expr::Expr` as consumed by `codegen.rs` (payloads of
`unimplemented!()` arms dropped). -/
inductive Expr : Type where
  | Atom (atom : Atom)
  | Primary
  | UnaryOp (op : UnaryOp) (expr : Expr)
  | BinaryOp (op : BinaryOp) (lhs rhs : Expr)
  | Assignment
  | Declaration
  | Tuple
  | ObjectCtor
  | Block
  | FunctionDef

end

/-- `parser::stmt::Stmt` (file missing; modelled from the match in
`CodeGenerator::compile_stmt`). -/
inductive Stmt : Type where
  | Echo (expr : Expr)
  | Expression (expr : Expr)
  | Continue (label : Option Nat)
  | Break (label : Option Nat) (expr : Option Expr)
  | Return (expr : Option Expr)

/-- `parser::stmt::StmtMeta`: a statement plus its debug symbol. -/
structure StmtMeta : Type where
  variant : Stmt
  symbol : Nat

/-- Every operator tag has positive size (termination bookkeeping). -/
theorem unaryOp_one_le_sizeOf (op : UnaryOp) : 1 ≤ sizeOf op := by
  cases op <;> simp

/-- Every operator tag has positive size (termination bookkeeping). -/
theorem binaryOp_one_le_sizeOf (op : BinaryOp) : 1 ≤ sizeOf op := by
  cases op <;> simp

mutual

/-- `CodeGenerator::compile_expr`. -/
def compile_expr (g : CodeGenerator) (symbol : Nat) (e : Expr) : CompileOutcome :=
  match e with
  | .Atom a => compile_atom g symbol a
  | .Primary => .fatal
  | .UnaryOp op e => compile_unary_op g symbol op e
  | .BinaryOp op lhs rhs => compile_binary_op g symbol op lhs rhs
  | .Assignment => .fatal
  | .Declaration => .fatal
  | .Tuple => .fatal
  | .ObjectCtor => .fatal
  | .Block => .fatal
  | .FunctionDef => .fatal
termination_by sizeOf e
decreasing_by
  all_goals simp_wf
  all_goals first
    | omega
    | (have h := unaryOp_one_le_sizeOf op; omega)
    | (have h := binaryOp_one_le_sizeOf op; omega)

/-- `CodeGenerator::compile_atom`. -/
def compile_atom (g : CodeGenerator) (symbol : Nat) (a : Atom) : CompileOutcome :=
  match a with
  | .Nil => .ok (g.emit_instr symbol .Nil)
  | .EmptyTuple => .ok (g.emit_instr symbol .Empty)
  | .BooleanLiteral true => .ok (g.emit_instr symbol .True)
  | .BooleanLiteral false => .ok (g.emit_instr symbol .False)
  | .IntegerLiteral v => g.emit_const symbol (.Integer v)
  | .FloatLiteral v => g.emit_const symbol (.Float v)
  | .StringLiteral s => g.emit_const symbol (.InternStr s)
  | .Identifier _ => .fatal
  | .Group e => compile_expr g symbol e
termination_by sizeOf a

/-- `CodeGenerator::compile_unary_op`: operand first, then the operator
instruction. -/
def compile_unary_op (g : CodeGenerator) (symbol : Nat) (op : UnaryOp) (e : Expr) :
    CompileOutcome :=
  match compile_expr g symbol e with
  | .fatal => .fatal
  | .error g' err => .error g' err
  | .ok g' =>
    match op with
    | .Neg => .ok (g'.emit_instr symbol .Neg)
    | .Pos => .ok (g'.emit_instr symbol .Pos)
    | .Inv => .ok (g'.emit_instr symbol .Inv)
    | .Not => .ok (g'.emit_instr symbol .Not)
termination_by sizeOf e + 1

/-- `CodeGenerator::compile_binary_op`: left operand, right operand, then
the operator instruction. -/
def compile_binary_op (g : CodeGenerator) (symbol : Nat) (op : BinaryOp)
    (lhs rhs : Expr) : CompileOutcome :=
  match compile_expr g symbol lhs with
  | .fatal => .fatal
  | .error g' err => .error g' err
  | .ok g1 =>
    match compile_expr g1 symbol rhs with
    | .fatal => .fatal
    | .error g' err => .error g' err
    | .ok g2 =>
      match op with
      | .Logical _ => .fatal
      | .Arithmetic .Mul => .ok (g2.emit_instr symbol .Mul)
      | .Arithmetic .Div => .ok (g2.emit_instr symbol .Div)
      | .Arithmetic .Mod => .ok (g2.emit_instr symbol .Mod)
      | .Arithmetic .Add => .ok (g2.emit_instr symbol .Add)
      | .Arithmetic .Sub => .ok (g2.emit_instr symbol .Sub)
      | .Bitwise .And => .ok (g2.emit_instr symbol .And)
      | .Bitwise .Xor => .ok (g2.emit_instr symbol .Xor)
      | .Bitwise .Or => .ok (g2.emit_instr symbol .Or)
      | .Shift .Left => .ok (g2.emit_instr symbol .Shl)
      | .Shift .Right => .ok (g2.emit_instr symbol .Shr)
      | .Comparison .LT => .ok (g2.emit_instr symbol .LT)
      | .Comparison .GT => .ok (g2.emit_instr symbol .GT)
      | .Comparison .LE => .ok (g2.emit_instr symbol .LE)
      | .Comparison .GE => .ok (g2.emit_instr symbol .GE)
      | .Comparison .EQ => .ok (g2.emit_instr symbol .EQ)
      | .Comparison .NE => .ok (g2.emit_instr symbol .NE)
termination_by sizeOf lhs + sizeOf rhs + 1

end

/-- `CodeGenerator::compile_stmt`. -/
def compile_stmt (g : CodeGenerator) (symbol : Nat) : Stmt → CompileOutcome
  | .Echo _ => .fatal
  | .Expression e => compile_expr g symbol e
  | .Continue _ => .fatal
  | .Break _ _ => .fatal
  | .Return _ => .fatal

/-- `CodeGenerator::push_stmt`: a compile failure is appended to the error
list and compilation carries on; `none` models an `unimplemented!()`
panic. -/
def CodeGenerator.push_stmt (g : CodeGenerator) (stmt : StmtMeta) :
    Option CodeGenerator :=
  match compile_stmt g stmt.symbol stmt.variant with
  | .fatal => none
  | .error g' e => some { g' with errors := g'.errors ++ [e] }
  | .ok g' => some g'

/-- `CodeGenerator::finish`. -/
def CodeGenerator.finish (g : CodeGenerator) : Except (List CompileError) Program :=
  if g.errors.isEmpty then .ok g.program else .error g.errors

/-- `CodeGenerator::compile_program`: push every statement, then finish. -/
def CodeGenerator.compile_program (g : CodeGenerator) :
    List StmtMeta → Option (Except (List CompileError) Program)
  | [] => some g.finish
  | stmt :: rest =>
    match g.push_stmt stmt with
    | none => none
    | some g' => g'.compile_program rest

/-!
## `src/runtime/gc/handle.rs` — GC handles

The collector itself (`src/runtime/gc.rs`, with `GC_STATE`, `deref_safe`
and `GCBox`) is missing from the sources; its state is modelled from the
spec (§4.3): a process-wide flag that is unsafe exactly while the collector
is mid-sweep, except from within an object's own finalization (which the
sweep invokes directly).  The heap is modelled as a partial map from
addresses to boxes, and the `debug_assert!(deref_safe())` gate in `GC::inner`
/ `GC::inner_mut` as a fail-fast `none` result.  `GCBox::mark_trace`'s
recursive tracing of reachable objects is elided (only the mark-own-slot
step is modelled); no claim depends on it.
-/

/-- Modelled from the spec: process-wide collector phase state. -/
structure GCStateModel : Type where
  sweeping : Bool
  in_finalizer : Bool
deriving DecidableEq, Repr

/-- Modelled from the spec: `gc::deref_safe` — dereferencing is unsafe
exactly while the collector is mid-sweep, unless running inside an object's
own finalization. -/
def deref_safe (st : GCStateModel) : Bool := !st.sweeping || st.in_finalizer

/-- Modelled from the spec: `gc::GCBox` — the arena-owned container. -/
structure GCBox (α : Type) : Type where
  value : α
  marked : Bool
  addr : Nat

/-- `GCBox::ptr_eq` (modelled from the spec: storage-address identity). -/
def GCBox.ptr_eq (a b : GCBox α) : Bool := a.addr == b.addr

/-- The GC arena's slots, as a partial map from addresses to boxes. -/
def GCHeap (α : Type) : Type := Nat → Option (GCBox α)

/-- `handle::GC<T>`: a non-owning handle, just a slot pointer. -/
structure GC (α : Type) : Type where
  ptr : Nat
deriving DecidableEq, Repr

/-- `GC::inner`: gated on `deref_safe`; fails fast (returns `none`) when
the collector is mid-sweep outside finalization. -/
def GC.inner (st : GCStateModel) (heap : GCHeap α) (h : GC α) : Option (GCBox α) :=
  if deref_safe st then heap h.ptr else none

/-- `GC::inner_mut`: same gate as `inner`. -/
def GC.inner_mut (st : GCStateModel) (heap : GCHeap α) (h : GC α) : Option (GCBox α) :=
  if deref_safe st then heap h.ptr else none

/-- `impl Deref for GC<T>`: `self.inner().value()`. -/
def GC.deref (st : GCStateModel) (heap : GCHeap α) (h : GC α) : Option α :=
  (h.inner st heap).map GCBox.value

/-- `GC::mark_trace`: `self.inner_mut().mark_trace()` — goes through the
deref gate, then sets the slot's mark bit. -/
def GC.mark_trace (st : GCStateModel) (heap : GCHeap α) (h : GC α) :
    Option (GCHeap α) :=
  match h.inner_mut st heap with
  | none => none
  | some box =>
    some (fun a => if a = h.ptr then some { box with marked := true } else heap a)

/-- `GC::ptr_eq`: `self.inner().ptr_eq(other.inner())` — both handles go
through the deref gate. -/
def GC.ptr_eq (st : GCStateModel) (heap : GCHeap α) (a b : GC α) : Option Bool :=
  match a.inner st heap, b.inner st heap with
  | some x, some y => some (x.ptr_eq y)
  | _, _ => none

/-! ## Theorems -/

/-- `wrap64` is the identity exactly on values that fit the integer width. -/
theorem wrap64_eq_self_iff (z : Int) : wrap64 z = z ↔ inRange64 z := by
  unfold wrap64 inRange64 intMin intMax
  have e1 : (2 : Int) ^ 63 = 9223372036854775808 := by norm_num
  have e2 : (2 : Int) ^ 64 = 18446744073709551616 := by norm_num
  rw [e1, e2]
  omega

/-- `int_mul` errors exactly on overflow. -/
theorem int_mul_eq (x y : Int) :
    int_mul x y
      = if inRange64 (x * y) then .ok (.Integer (x * y)) else .error .OverflowError := by
  unfold int_mul checked_int_math overflowing_mul
  by_cases h : inRange64 (x * y)
  · have hw : wrap64 (x * y) = x * y := (wrap64_eq_self_iff _).mpr h
    simp [h, hw]
  · have hw : ¬ wrap64 (x * y) = x * y := fun hc => h ((wrap64_eq_self_iff _).mp hc)
    simp [h, hw]

/-- `int_add` errors exactly on overflow. -/
theorem int_add_eq (x y : Int) :
    int_add x y
      = if inRange64 (x + y) then .ok (.Integer (x + y)) else .error .OverflowError := by
  unfold int_add checked_int_math overflowing_add
  by_cases h : inRange64 (x + y)
  · have hw : wrap64 (x + y) = x + y := (wrap64_eq_self_iff _).mpr h
    simp [h, hw]
  · have hw : ¬ wrap64 (x + y) = x + y := fun hc => h ((wrap64_eq_self_iff _).mp hc)
    simp [h, hw]

/-- `int_sub` errors exactly on overflow. -/
theorem int_sub_eq (x y : Int) :
    int_sub x y
      = if inRange64 (x - y) then .ok (.Integer (x - y)) else .error .OverflowError := by
  unfold int_sub checked_int_math overflowing_sub
  by_cases h : inRange64 (x - y)
  · have hw : wrap64 (x - y) = x - y := (wrap64_eq_self_iff _).mpr h
    simp [h, hw]
  · have hw : ¬ wrap64 (x - y) = x - y := fun hc => h ((wrap64_eq_self_iff _).mp hc)
    simp [h, hw]

/-- C2 (counterexample): contrary to the claim, `eval_div` does produce an
`OverflowError` — integer division is routed through the same
`checked_int_math!` overflow check as multiplication, and `MIN / -1`
overflows. -/
theorem overflow_policy_counterexample :
    eval_div (.Integer intMin) (.Integer (-1)) = .error .OverflowError := by decide

/-- C2 (amended): `eval_mul`, `eval_add` and `eval_sub` on two integers
return an `OverflowError` exactly when the exact result overflows the fixed
integer width, and otherwise the exact result — never wrapping or
panicking; `eval_add` on the two largest integers is an `OverflowError`,
`eval_add (2, 3)` is integer 5 and `eval_add (2, 3.0)` is float 5.0;
`eval_mod` is not overflow-checked and never produces an `OverflowError`;
but `eval_div` *is* overflow-checked: for a nonzero divisor it returns an
`OverflowError` exactly on `MIN / -1`. -/
theorem overflow_policy :
    (∀ x y : Int, eval_mul (.Integer x) (.Integer y)
        = if inRange64 (x * y) then .ok (some (.Integer (x * y))) else .error .OverflowError)
  ∧ (∀ x y : Int, eval_add (.Integer x) (.Integer y)
        = if inRange64 (x + y) then .ok (some (.Integer (x + y))) else .error .OverflowError)
  ∧ (∀ x y : Int, eval_sub (.Integer x) (.Integer y)
        = if inRange64 (x - y) then .ok (some (.Integer (x - y))) else .error .OverflowError)
  ∧ eval_add (.Integer intMax) (.Integer intMax) = .error .OverflowError
  ∧ eval_add (.Integer 2) (.Integer 3) = .ok (some (.Integer 5))
  ∧ eval_add (.Integer 2) (.Float 3) = .ok (some (.Float 5))
  ∧ (∀ x y : Int, eval_mod (.Integer x) (.Integer y) ≠ .error .OverflowError)
  ∧ (∀ x y : Int, y ≠ 0 →
      (eval_div (.Integer x) (.Integer y) = .error .OverflowError ↔ x = intMin ∧ y = -1)) := by
  refine ⟨?_, ?_, ?_, ?_, ?_, ?_, ?_, ?_⟩
  · intro x y
    have : eval_mul (.Integer x) (.Integer y) = (int_mul x y).map some := rfl
    rw [this, int_mul_eq]
    by_cases h : inRange64 (x * y) <;> simp [h, EvalOutcome.map]
  · intro x y
    have : eval_add (.Integer x) (.Integer y) = (int_add x y).map some := rfl
    rw [this, int_add_eq]
    by_cases h : inRange64 (x + y) <;> simp [h, EvalOutcome.map]
  · intro x y
    have : eval_sub (.Integer x) (.Integer y) = (int_sub x y).map some := rfl
    rw [this, int_sub_eq]
    by_cases h : inRange64 (x - y) <;> simp [h, EvalOutcome.map]
  · decide
  · decide
  · simp [eval_add, eval_binary_arithmetic, is_arithmetic_primitive, Variant.float_value,
      float_add, EvalOutcome.map]
    norm_num
  · intro x y
    simp only [eval_mod, eval_binary_arithmetic, int_mod]
    split_ifs <;> simp [EvalOutcome.map]
  · intro x y hy
    simp only [eval_div, eval_binary_arithmetic, int_div, overflowing_div, checked_int_math,
      if_neg hy]
    by_cases hc : x = intMin ∧ y = -1 <;> simp [hc, EvalOutcome.map]

/-- C2 witness: the overflow-policy theorem applied at `MIN / -1`. -/
theorem overflow_policy_witness :
    (-1 : Int) ≠ 0
  ∧ (eval_div (.Integer intMin) (.Integer (-1)) = .error .OverflowError
      ↔ intMin = intMin ∧ (-1 : Int) = -1) :=
  ⟨by norm_num, overflow_policy.2.2.2.2.2.2.2 intMin (-1) (by norm_num)⟩

/-- C7: `eval_eq` is total (it is a `Bool`-valued function on every pair of
variants, with no fallback outcome): `Nil` equals nothing, including `Nil`;
`EmptyTuple` equals only `EmptyTuple`; same-type primitives compare
structurally; a mixed integer/float pair compares via float coercion, so
`eval_eq (Integer 2) (Float 2.0)` is true. -/
theorem eval_eq_policy :
    (∀ x, eval_eq .Nil x = false)
  ∧ (∀ x, eval_eq x .Nil = false)
  ∧ eval_eq .EmptyTuple .EmptyTuple = true
  ∧ (eval_eq .BoolTrue .BoolTrue = true ∧ eval_eq .BoolFalse .BoolFalse = true
      ∧ eval_eq .BoolTrue .BoolFalse = false ∧ eval_eq .BoolFalse .BoolTrue = false)
  ∧ (∀ a b : Nat, eval_eq (.InternStr a) (.InternStr b) = decide (a = b))
  ∧ (∀ a b : Int, eval_eq (.Integer a) (.Integer b) = decide (a = b))
  ∧ (∀ a b : Rat, eval_eq (.Float a) (.Float b) = decide (a = b))
  ∧ (∀ (n : Int) (q : Rat), eval_eq (.Integer n) (.Float q) = decide ((n : Rat) = q))
  ∧ (∀ (n : Int) (q : Rat), eval_eq (.Float q) (.Integer n) = decide (q = (n : Rat)))
  ∧ eval_eq (.Integer 2) (.Float 2) = true := by
  refine ⟨?_, ?_, rfl, ⟨rfl, rfl, rfl, rfl⟩, ?_, ?_, ?_, ?_, ?_, ?_⟩
  · intro x; cases x <;> rfl
  · intro x; cases x <;> rfl
  · intro a b; rfl
  · intro a b; rfl
  · intro a b
    simp [eval_eq, is_arithmetic_primitive, Variant.float_value]
  · intro n q
    simp [eval_eq, is_arithmetic_primitive, Variant.float_value]
  · intro n q
    simp [eval_eq, is_arithmetic_primitive, Variant.float_value]
  · simp [eval_eq, is_arithmetic_primitive, Variant.float_value]

/-- C10: the short-circuit evaluator places no guard on a zero integer
divisor — `eval_div` and `eval_mod` on `(x, 0)` hit the native
divide-by-zero panic instead of returning an error value or `none`. -/
theorem div_mod_zero_divisor_fatal :
    ∀ x : Int, eval_div (.Integer x) (.Integer 0) = .fatal
      ∧ eval_mod (.Integer x) (.Integer 0) = .fatal := by
  intro x
  constructor <;>
    simp [eval_div, eval_mod, eval_binary_arithmetic, int_div, int_mod, EvalOutcome.map]

/-- C3 (counterexample): contrary to the claim, a mixed boolean/integer
pair does not make the bitwise evaluators return `none`: both operands are
bitwise primitives, so the integer path fires with the boolean coerced
through `bit_value`. -/
theorem bitwise_mixed_counterexample :
    eval_and .BoolTrue (.Integer 1) = some (.Integer 1)
  ∧ eval_xor .BoolTrue (.Integer 1) = some (.Integer (-2))
  ∧ eval_or .BoolFalse (.Integer 2) = some (.Integer 2)
  ∧ eval_and .BoolTrue (.Integer 1) ≠ none := by
  refine ⟨by decide, by decide, by decide, by decide⟩

/-- C3 (amended): for two booleans the bitwise evaluators return the
logical AND/XOR/OR; for two integers the integer bitwise result; a mixed
boolean/integer pair does *not* fall back to `none` — it is evaluated on
the integer path with the boolean coerced to the all-ones (for true) or
all-zeros (for false) bit pattern; only pairs with a non-bitwise-primitive
operand return `none`. -/
theorem bitwise_policy :
    (eval_and .BoolTrue .BoolTrue = some .BoolTrue
      ∧ eval_and .BoolTrue .BoolFalse = some .BoolFalse
      ∧ eval_and .BoolFalse .BoolTrue = some .BoolFalse
      ∧ eval_and .BoolFalse .BoolFalse = some .BoolFalse
      ∧ eval_xor .BoolTrue .BoolTrue = some .BoolFalse
      ∧ eval_xor .BoolTrue .BoolFalse = some .BoolTrue
      ∧ eval_xor .BoolFalse .BoolTrue = some .BoolTrue
      ∧ eval_xor .BoolFalse .BoolFalse = some .BoolFalse
      ∧ eval_or .BoolTrue .BoolTrue = some .BoolTrue
      ∧ eval_or .BoolTrue .BoolFalse = some .BoolTrue
      ∧ eval_or .BoolFalse .BoolTrue = some .BoolTrue
      ∧ eval_or .BoolFalse .BoolFalse = some .BoolFalse)
  ∧ (∀ m n : Int, eval_and (.Integer m) (.Integer n) = some (int_and m n)
      ∧ eval_xor (.Integer m) (.Integer n) = some (int_xor m n)
      ∧ eval_or (.Integer m) (.Integer n) = some (int_or m n))
  ∧ (∀ n : Int,
        eval_and .BoolTrue (.Integer n) = some (int_and (-1) n)
      ∧ eval_and .BoolFalse (.Integer n) = some (int_and 0 n)
      ∧ eval_and (.Integer n) .BoolTrue = some (int_and n (-1))
      ∧ eval_and (.Integer n) .BoolFalse = some (int_and n 0)
      ∧ eval_xor .BoolTrue (.Integer n) = some (int_xor (-1) n)
      ∧ eval_xor .BoolFalse (.Integer n) = some (int_xor 0 n)
      ∧ eval_xor (.Integer n) .BoolTrue = some (int_xor n (-1))
      ∧ eval_xor (.Integer n) .BoolFalse = some (int_xor n 0)
      ∧ eval_or .BoolTrue (.Integer n) = some (int_or (-1) n)
      ∧ eval_or .BoolFalse (.Integer n) = some (int_or 0 n)
      ∧ eval_or (.Integer n) .BoolTrue = some (int_or n (-1))
      ∧ eval_or (.Integer n) .BoolFalse = some (int_or n 0))
  ∧ (∀ l r : Variant,
        is_bitwise_primitive l = false ∨ is_bitwise_primitive r = false →
        eval_and l r = none ∧ eval_xor l r = none ∧ eval_or l r = none) := by
  refine ⟨⟨rfl, rfl, rfl, rfl, rfl, rfl, rfl, rfl, rfl, rfl, rfl, rfl⟩, ?_, ?_, ?_⟩
  · intro m n
    exact ⟨rfl, rfl, rfl⟩
  · intro n
    exact ⟨rfl, rfl, rfl, rfl, rfl, rfl, rfl, rfl, rfl, rfl, rfl, rfl⟩
  · intro l r h
    cases l <;> cases r <;>
      simp_all [eval_and, eval_xor, eval_or, eval_binary_bitwise, is_bitwise_primitive]

/-- C3 witness: the `none` fallback instantiated at `Nil` and an integer. -/
theorem bitwise_policy_witness :
    (is_bitwise_primitive .Nil = false ∨ is_bitwise_primitive (.Integer 3) = false)
  ∧ (eval_and .Nil (.Integer 3) = none ∧ eval_xor .Nil (.Integer 3) = none
      ∧ eval_or .Nil (.Integer 3) = none) :=
  ⟨Or.inl rfl, bitwise_policy.2.2.2 .Nil (.Integer 3) (Or.inl rfl)⟩

/-- C4 (counterexample): contrary to the claim, a negative integer shift
count yields `NegativeShiftCount` only when the left operand is a bitwise
primitive; with any other left operand `eval_shl`/`eval_shr` fall through
to the `Ok(None)` fallback. -/
theorem shift_negative_counterexample :
    eval_shl (.Float 1) (.Integer (-1)) = .ok none
  ∧ eval_shr (.Float 1) (.Integer (-1)) = .ok none
  ∧ eval_shl .Nil (.Integer (-1)) = .ok none
  ∧ eval_shr (.InternStr 0) (.Integer (-1)) = .ok none := by
  refine ⟨by decide, by decide, by decide, by decide⟩

/-- C4 (amended): for a *bitwise-primitive* left operand, a negative
integer shift count is a recoverable `NegativeShiftCount` error; for a
non-bitwise-primitive left operand the evaluators return `none` regardless
of the shift count; shifting a bitwise primitive by boolean false returns
the left operand unchanged, and shifting by boolean true is the same as
shifting by integer 1. -/
theorem shift_policy :
    (∀ (l : Variant) (s : Int), is_bitwise_primitive l = true → s < 0 →
        eval_shl l (.Integer s) = .error .NegativeShiftCount
      ∧ eval_shr l (.Integer s) = .error .NegativeShiftCount)
  ∧ (∀ l r : Variant, is_bitwise_primitive l = false →
        eval_shl l r = .ok none ∧ eval_shr l r = .ok none)
  ∧ (∀ l : Variant, is_bitwise_primitive l = true →
        eval_shl l .BoolFalse = .ok (some l) ∧ eval_shr l .BoolFalse = .ok (some l))
  ∧ (∀ l : Variant, is_bitwise_primitive l = true →
        eval_shl l .BoolTrue = eval_shl l (.Integer 1)
      ∧ eval_shr l .BoolTrue = eval_shr l (.Integer 1)) := by
  refine ⟨?_, ?_, ?_, ?_⟩
  · intro l s hl hs
    cases l <;>
      simp_all [eval_shl, eval_shr, eval_binary_shift, int_shl, int_shr,
        is_bitwise_primitive, EvalOutcome.map]
  · intro l r hl
    cases l <;> cases r <;>
      simp_all [eval_shl, eval_shr, eval_binary_shift, is_bitwise_primitive]
  · intro l hl
    cases l <;> simp_all [eval_shl, eval_shr, eval_binary_shift, is_bitwise_primitive]
  · intro l hl
    cases l <;> simp_all [eval_shl, eval_shr, eval_binary_shift, is_bitwise_primitive]

/-- C4 witness: the shift policy applied at concrete operands. -/
theorem shift_policy_witness :
    (is_bitwise_primitive (.Integer 5) = true ∧ (-3 : Int) < 0
      ∧ eval_shl (.Integer 5) (.Integer (-3)) = .error .NegativeShiftCount
      ∧ eval_shr (.Integer 5) (.Integer (-3)) = .error .NegativeShiftCount)
  ∧ (is_bitwise_primitive (.Float 1) = false
      ∧ eval_shl (.Float 1) (.Integer 7) = .ok none
      ∧ eval_shr (.Float 1) (.Integer 7) = .ok none)
  ∧ (eval_shl (.Integer 5) .BoolFalse = .ok (some (.Integer 5))
      ∧ eval_shr (.Integer 5) .BoolFalse = .ok (some (.Integer 5)))
  ∧ (eval_shl (.Integer 5) .BoolTrue = eval_shl (.Integer 5) (.Integer 1)
      ∧ eval_shr (.Integer 5) .BoolTrue = eval_shr (.Integer 5) (.Integer 1)) := by
  refine ⟨⟨rfl, by norm_num, shift_policy.1 (.Integer 5) (-3) rfl (by norm_num)⟩,
          ⟨rfl, shift_policy.2.1 (.Float 1) (.Integer 7) rfl⟩,
          shift_policy.2.2.1 (.Integer 5) rfl,
          shift_policy.2.2.2 (.Integer 5) rfl⟩

/-- C9: every dereference of a GC handle — `inner`, `inner_mut`, and through
them `Deref`, `mark_trace` and `ptr_eq` — checks the process-wide
deref-safe flag and fails fast when the collector is mid-sweep; the gate is
open during an object's own finalization within the sweep, and whenever the
collector is not sweeping. -/
theorem gc_deref_gate (α : Type) (st : GCStateModel) (heap : GCHeap α) (h k : GC α)
    (hs : st.sweeping = true) (hf : st.in_finalizer = false) :
    GC.inner st heap h = none
  ∧ GC.inner_mut st heap h = none
  ∧ GC.deref st heap h = none
  ∧ GC.mark_trace st heap h = none
  ∧ GC.ptr_eq st heap h k = none
  ∧ (∀ st' : GCStateModel,
      deref_safe st' = false ↔ st'.sweeping = true ∧ st'.in_finalizer = false)
  ∧ (∀ (heap' : GCHeap α) (h' : GC α),
      GC.inner ⟨true, true⟩ heap' h' = heap' h'.ptr
      ∧ GC.inner ⟨false, false⟩ heap' h' = heap' h'.ptr) := by
  have hunsafe : deref_safe st = false := by
    simp [deref_safe, hs, hf]
  refine ⟨?_, ?_, ?_, ?_, ?_, ?_, ?_⟩
  · simp [GC.inner, hunsafe]
  · simp [GC.inner_mut, hunsafe]
  · simp [GC.deref, GC.inner, hunsafe]
  · simp [GC.mark_trace, GC.inner_mut, hunsafe]
  · simp [GC.ptr_eq, GC.inner, hunsafe]
  · intro st'
    cases st' with
    | mk sweeping in_finalizer => cases sweeping <;> cases in_finalizer <;> simp [deref_safe]
  · intro heap' h'
    constructor <;> simp [GC.inner, deref_safe]

/-- C9 witness: the deref gate at a concrete mid-sweep state. -/
theorem gc_deref_gate_witness :
    GC.inner ⟨true, false⟩ (fun _ => (none : Option (GCBox Nat))) ⟨0⟩ = none
  ∧ GC.inner_mut ⟨true, false⟩ (fun _ => (none : Option (GCBox Nat))) ⟨0⟩ = none
  ∧ GC.deref ⟨true, false⟩ (fun _ => (none : Option (GCBox Nat))) ⟨0⟩ = none
  ∧ GC.mark_trace ⟨true, false⟩ (fun _ => (none : Option (GCBox Nat))) ⟨0⟩ = none
  ∧ GC.ptr_eq ⟨true, false⟩ (fun _ => (none : Option (GCBox Nat))) ⟨0⟩ ⟨1⟩ = none := by
  have H := gc_deref_gate Nat ⟨true, false⟩ (fun _ => none) ⟨0⟩ ⟨1⟩ rfl rfl
  exact ⟨H.1, H.2.1, H.2.2.1, H.2.2.2.1, H.2.2.2.2.1⟩

/-- The full per-scope match condition used by `resolve_control_flow`:
tag accepts the request, and the label matches (or the request is
unlabeled). -/
def control_flow_accepts (target : ControlFlowTarget) (s : Scope) : Bool :=
  s.tag.accepts_control_flow target
    && (target.label.isNone || target.label == s.control_flow.label)

theorem find_control_flow_cons (target : ControlFlowTarget) (s : Scope) (rest : List Scope) :
    find_control_flow target (s :: rest)
      = if control_flow_accepts target s then some s else find_control_flow target rest := rfl

/-- A successful `find_control_flow` returns the first matching scope. -/
theorem find_control_flow_some (target : ControlFlowTarget) (l : List Scope) (s : Scope)
    (h : find_control_flow target l = some s) :
    control_flow_accepts target s = true
    ∧ ∃ pre post, l = pre ++ s :: post
        ∧ ∀ x ∈ pre, control_flow_accepts target x = false := by
  induction l with
  | nil => simp [find_control_flow] at h
  | cons a rest ih =>
    rw [find_control_flow_cons] at h
    by_cases hc : control_flow_accepts target a = true
    · rw [if_pos hc] at h
      have ha : a = s := by injection h
      subst ha
      exact ⟨hc, [], rest, rfl, by simp⟩
    · rw [if_neg hc] at h
      obtain ⟨hacc, pre, post, heq, hpre⟩ := ih h
      refine ⟨hacc, a :: pre, post, by simp [heq], ?_⟩
      intro x hx
      rcases List.mem_cons.mp hx with hx | hx
      · subst hx; simpa using hc
      · exact hpre x hx

/-- `find_control_flow` fails exactly when no scope in the stack matches. -/
theorem find_control_flow_none (target : ControlFlowTarget) (l : List Scope) :
    find_control_flow target l = none
      ↔ ∀ x ∈ l, control_flow_accepts target x = false := by
  induction l with
  | nil => simp [find_control_flow]
  | cons a rest ih =>
    rw [find_control_flow_cons]
    by_cases hc : control_flow_accepts target a = true
    · simp [hc]
    · simp only [Bool.not_eq_true] at hc
      simp [hc, ih]

/-- C6: `resolve_control_flow` scans the current frame's scopes only,
innermost-outward, and returns the nearest scope whose tag accepts the
request (`Loop` accepts break and continue, `Block` only break, `Branch`
and `Function` neither) and whose label matches when the request is
labeled; it returns `none` when no frame-local scope matches, and its
result is independent of everything outside the current frame, so it never
resolves through a function-frame boundary. -/
theorem resolve_control_flow_policy :
    (∀ lbl, ScopeTag.accepts_control_flow .Loop (.Break lbl) = true
      ∧ ScopeTag.accepts_control_flow .Loop (.Continue lbl) = true
      ∧ ScopeTag.accepts_control_flow .Block (.Break lbl) = true
      ∧ ScopeTag.accepts_control_flow .Block (.Continue lbl) = false)
  ∧ (∀ target, ScopeTag.accepts_control_flow .Branch target = false
      ∧ ScopeTag.accepts_control_flow .Function target = false)
  ∧ (∀ (t : ScopeTracker) (target : ControlFlowTarget) (s : Scope),
        t.resolve_control_flow target = some s →
        s.tag.accepts_control_flow target = true
      ∧ (target.label = none ∨ target.label = s.control_flow.label)
      ∧ ∃ pre post, t.local_scopes.scopes = pre ++ s :: post
          ∧ ∀ x ∈ pre, control_flow_accepts target x = false)
  ∧ (∀ (t : ScopeTracker) (target : ControlFlowTarget),
        t.resolve_control_flow target = none ↔
        ∀ x ∈ t.local_scopes.scopes, control_flow_accepts target x = false)
  ∧ (∀ (tl tl' : NestedScopes) (f : CallFrame) (fs fs' : List CallFrame)
        (target : ControlFlowTarget),
        ScopeTracker.resolve_control_flow ⟨tl, f :: fs⟩ target
          = ScopeTracker.resolve_control_flow ⟨tl', f :: fs'⟩ target) := by
  refine ⟨?_, ?_, ?_, ?_, ?_⟩
  · intro lbl; exact ⟨rfl, rfl, rfl, rfl⟩
  · intro target; constructor <;> cases target <;> rfl
  · intro t target s h
    obtain ⟨hacc, pre, post, heq, hpre⟩ := find_control_flow_some target _ s h
    simp only [control_flow_accepts, Bool.and_eq_true, Bool.or_eq_true,
      Option.isNone_iff_eq_none, beq_iff_eq] at hacc
    exact ⟨hacc.1, hacc.2, pre, post, heq, hpre⟩
  · intro t target
    exact find_control_flow_none target _
  · intro tl tl' f fs fs' target
    rfl

/-- C6 scenario: a frame whose scopes are (innermost first) a `Branch`
scope, an unlabeled `Loop` scope and the `Function` scope. -/
def c6_tracker : ScopeTracker :=
  ⟨⟨[]⟩, [⟨⟨[⟨.Branch, 2, none, none, [], ⟨none, none, []⟩⟩,
             ⟨.Loop, 1, none, none, [], ⟨none, none, []⟩⟩,
             ⟨.Function, 0, none, none, [], ⟨none, none, []⟩⟩]⟩, []⟩]⟩

/-- The `Loop` scope of the C6 scenario. -/
def c6_loop_scope : Scope := ⟨.Loop, 1, none, none, [], ⟨none, none, []⟩⟩

/-- C6 witness: an unlabeled break in the scenario tracker resolves to the
nearest `Loop` scope, skipping the inner `Branch` scope. -/
theorem resolve_control_flow_policy_witness :
    c6_tracker.resolve_control_flow (.Break none) = some c6_loop_scope
  ∧ c6_loop_scope.tag.accepts_control_flow (.Break none) = true :=
  ⟨rfl, (resolve_control_flow_policy.2.2.1 c6_tracker (.Break none) c6_loop_scope rfl).1⟩

/-- The slot index the next new local of scope `s` starts from: one past
the enclosing scope's last slot, or 0 at function start. -/
def Scope.startIndex (s : Scope) : Nat :=
  match s.prev_index with
  | none => 0
  | some i => i + 1

/-- The locals carry consecutive slot indices starting at `k`. -/
def localsFromB : Nat → List Local → Bool
  | _, [] => true
  | k, l :: ls => l.index == k && localsFromB (k + 1) ls

theorem localsFromB_map_range (k : Nat) (ls : List Local)
    (h : localsFromB k ls = true) :
    ls.map (fun l => l.index) = List.range' k ls.length := by
  induction ls generalizing k with
  | nil => simp
  | cons l ls ih =>
    simp only [localsFromB, Bool.and_eq_true, beq_iff_eq] at h
    simp only [List.map_cons, List.length_cons]
    rw [show List.range' k (ls.length + 1) = k :: List.range' (k + 1) ls.length from rfl]
    rw [h.1, ih _ h.2]

theorem localsFromB_getLast (k : Nat) (ls : List Local) (l : Local)
    (h : localsFromB k ls = true) (hl : ls.getLast? = some l) :
    l.index + 1 = k + ls.length := by
  induction ls generalizing k with
  | nil => simp at hl
  | cons a ls ih =>
    simp only [localsFromB, Bool.and_eq_true, beq_iff_eq] at h
    cases ls with
    | nil =>
      simp only [List.getLast?_singleton, Option.some.injEq] at hl
      subst hl
      simp [h.1]
    | cons b t =>
      rw [List.getLast?_cons_cons] at hl
      have := ih (k + 1) h.2 hl
      simp only [List.length_cons] at this ⊢
      omega

theorem localsFromB_append (k : Nat) (ls : List Local) (l : Local)
    (h : localsFromB k ls = true) (hl : l.index = k + ls.length) :
    localsFromB k (ls ++ [l]) = true := by
  induction ls generalizing k with
  | nil => simp [localsFromB, hl]
  | cons a ls ih =>
    simp only [localsFromB, Bool.and_eq_true, beq_iff_eq] at h
    simp only [List.cons_append, localsFromB, Bool.and_eq_true, beq_iff_eq]
    refine ⟨h.1, ih (k + 1) h.2 ?_⟩
    simp only [List.length_cons] at hl
    omega

theorem localsFromB_redeclare (d : DeclType) (n : LocalName) (k : Nat) (ls : List Local)
    (h : localsFromB k ls = true) :
    localsFromB k (redeclare_in d n ls) = true := by
  induction ls generalizing k with
  | nil => simpa [redeclare_in] using h
  | cons a ls ih =>
    simp only [localsFromB, Bool.and_eq_true, beq_iff_eq] at h
    by_cases hn : a.name = n
    · simp [redeclare_in, hn, localsFromB, h.1, h.2]
    · simp [redeclare_in, hn, localsFromB, h.1, ih _ h.2]

/-- `push_local` preserves consecutive slot numbering. -/
theorem push_local_monotonic (s : Scope) (d : DeclType) (n : LocalName)
    (s' : Scope) (l : Local)
    (hinv : localsFromB s.startIndex s.locals = true)
    (h : s.push_local d n = .ok (s', l)) :
    localsFromB s'.startIndex s'.locals = true ∧ s'.prev_index = s.prev_index := by
  unfold Scope.push_local at h
  split at h
  · next hli =>
    simp only [Except.ok.injEq, Prod.mk.injEq] at h
    obtain ⟨hs, -⟩ := h
    subst hs
    have hempty : s.locals = [] ∧ s.prev_index = none := by
      unfold Scope.last_index at hli
      cases hgl : s.locals.getLast? with
      | some x => rw [hgl] at hli; simp at hli
      | none =>
        rw [hgl] at hli
        exact ⟨List.getLast?_eq_none_iff.mp hgl, hli⟩
    refine ⟨?_, rfl⟩
    simp [localsFromB, Scope.startIndex, hempty.1, hempty.2]
  · next i hli =>
    split at h
    · simp at h
    · next hmax =>
      simp only [Except.ok.injEq, Prod.mk.injEq] at h
      obtain ⟨hs, -⟩ := h
      subst hs
      refine ⟨?_, rfl⟩
      show localsFromB s.startIndex (s.locals ++ [⟨d, n, i + 1, false⟩]) = true
      cases hgl : s.locals.getLast? with
      | none =>
        have hnil : s.locals = [] := List.getLast?_eq_none_iff.mp hgl
        have hprev : s.prev_index = some i := by
          unfold Scope.last_index at hli; rw [hgl] at hli; exact hli
        simp [localsFromB, Scope.startIndex, hnil, hprev]
      | some x =>
        have hxi : x.index = i := by
          unfold Scope.last_index at hli
          rw [hgl] at hli
          injection hli
        have hlen := localsFromB_getLast s.startIndex s.locals x hinv hgl
        apply localsFromB_append _ _ _ hinv
        show i + 1 = s.startIndex + s.locals.length
        omega

/-- `insert_local` preserves consecutive slot numbering (a redeclare keeps
the slots untouched, a new slot extends the run by one). -/
theorem insert_local_monotonic (s : Scope) (d : DeclType) (n : LocalName)
    (s' : Scope) (r : InsertLocal)
    (hinv : localsFromB s.startIndex s.locals = true)
    (h : s.insert_local d n = .ok (s', r)) :
    localsFromB s'.startIndex s'.locals = true ∧ s'.prev_index = s.prev_index := by
  unfold Scope.insert_local at h
  split at h
  · next l hf =>
    simp only [Except.ok.injEq, Prod.mk.injEq] at h
    obtain ⟨hs, -⟩ := h
    subst hs
    exact ⟨localsFromB_redeclare d n _ _ hinv, rfl⟩
  · next hf =>
    split at h
    · simp at h
    · next s'' l hp =>
      simp only [Except.ok.injEq, Prod.mk.injEq] at h
      obtain ⟨hs, -⟩ := h
      subst hs
      exact push_local_monotonic s d n s'' l hinv hp

/-- A sequence of `insert_local` calls into one scope, without intervening
pops. -/
def Scope.insertMany (s : Scope) : List (DeclType × LocalName) → Except ErrorKind Scope
  | [] => .ok s
  | (d, n) :: rest =>
    match s.insert_local d n with
    | .error e => .error e
    | .ok (s', _) => s'.insertMany rest

theorem insertMany_monotonic (reqs : List (DeclType × LocalName)) :
    ∀ s s' : Scope, localsFromB s.startIndex s.locals = true →
    Scope.insertMany s reqs = .ok s' →
    localsFromB s'.startIndex s'.locals = true ∧ s'.prev_index = s.prev_index := by
  induction reqs with
  | nil =>
    intro s s' hinv h
    unfold Scope.insertMany at h
    injection h with h
    subst h
    exact ⟨hinv, rfl⟩
  | cons dn rest ih =>
    intro s s' hinv h
    obtain ⟨d, n⟩ := dn
    unfold Scope.insertMany at h
    split at h
    · simp at h
    · next s'' r hp =>
      obtain ⟨hinv', hprev'⟩ := insert_local_monotonic s d n s'' r hinv hp
      obtain ⟨hinv'', hprev''⟩ := ih s'' s' hinv' h
      exact ⟨hinv'', hprev''.trans hprev'⟩

/-- C5: after any sequence of successful `insert_local` calls into one
scope without intervening pops, the scope's slot indices are strictly
increasing by 1 — they are exactly `startIndex, startIndex+1, …` where
`startIndex` is one past the previous (enclosing) scope's last slot index,
or 0 at function start; a frame's initial `Function` scope starts at 0,
and a freshly pushed scope starts one past the enclosing scope's last
index. -/
theorem insert_local_slot_monotonic :
    (∀ (s : Scope) (reqs : List (DeclType × LocalName)) (s' : Scope),
        localsFromB s.startIndex s.locals = true →
        Scope.insertMany s reqs = .ok s' →
        s'.locals.map (fun l => l.index) = List.range' s'.startIndex s'.locals.length
      ∧ s'.prev_index = s.prev_index)
  ∧ (∀ symbol, (CallFrame.new symbol).scopes.scopes.map Scope.startIndex = [0]
      ∧ (CallFrame.new symbol).scopes.scopes.map Scope.locals = [[]])
  ∧ (∀ (ns : NestedScopes) (symbol : Option Nat) (tag : ScopeTag) (label : Option Nat)
        (sc : Scope) (rest : List Scope),
        (ns.push_scope symbol tag label).scopes = sc :: rest →
        rest = ns.scopes ∧ sc.locals = []
      ∧ sc.startIndex = (match ns.scopes.head? with
          | some enc => (match enc.last_index with | some i => i + 1 | none => 0)
          | none => 0)) := by
  refine ⟨?_, ?_, ?_⟩
  · intro s reqs s' hinv h
    obtain ⟨hinv', hprev⟩ := insertMany_monotonic reqs s s' hinv h
    exact ⟨localsFromB_map_range _ _ hinv', hprev⟩
  · intro symbol; exact ⟨rfl, rfl⟩
  · intro ns symbol tag label sc rest h
    unfold NestedScopes.push_scope at h
    simp only [List.cons.injEq] at h
    obtain ⟨hsc, hrest⟩ := h
    subst hsc
    subst hrest
    refine ⟨rfl, rfl, ?_⟩
    cases hh : ns.scopes.head? with
    | none => simp [Scope.startIndex, hh]
    | some enc =>
      cases hli : enc.last_index with
      | none => simp [Scope.startIndex, hh, hli]
      | some i => simp [Scope.startIndex, hh, hli]

/-- C5 scenario: a fresh function scope. -/
def c5_scope : Scope := ⟨.Function, 0, none, none, [], ⟨none, none, []⟩⟩

/-- C5 scenario result: two distinct names inserted, the first then
redeclared in place. -/
def c5_result : Scope :=
  ⟨.Function, 0, none, none,
   [⟨.Immutable, .Symbol 0, 0, false⟩, ⟨.Mutable, .Symbol 1, 1, false⟩],
   ⟨none, none, []⟩⟩

/-- C5 witness: the slot-monotonicity theorem applied to a concrete
insertion sequence. -/
theorem insert_local_slot_monotonic_witness :
    localsFromB c5_scope.startIndex c5_scope.locals = true
  ∧ Scope.insertMany c5_scope
      [(.Immutable, .Symbol 0), (.Mutable, .Symbol 1), (.Immutable, .Symbol 0)]
      = .ok c5_result
  ∧ c5_result.locals.map (fun l => l.index)
      = List.range' c5_result.startIndex c5_result.locals.length
  ∧ c5_result.prev_index = c5_scope.prev_index := by
  have H := insert_local_slot_monotonic.1 c5_scope
    [(.Immutable, .Symbol 0), (.Mutable, .Symbol 1), (.Immutable, .Symbol 0)]
    c5_result rfl rfl
  exact ⟨rfl, rfl, H.1, H.2⟩

/-- C1 scenario: push frame F0, declare a local in its function scope,
then push nested frames F1 and F2 (`none` when the tracker panics). -/
def c1_setup (decl : DeclType) (name : LocalName) : Option ScopeTracker :=
  let t0 := ScopeTracker.new.push_frame none
  match t0.insert_local decl name with
  | some (.ok (t1, _)) => some ((t1.push_frame none).push_frame none)
  | _ => none

/-- The C1 scenario tracker before resolution (innermost frame F2 first). -/
def c1_start (decl : DeclType) (name : LocalName) : ScopeTracker :=
  ⟨⟨[]⟩,
   [CallFrame.new none, CallFrame.new none,
    ⟨⟨[⟨.Function, 0, none, none, [⟨decl, name, 0, false⟩], ⟨none, none, []⟩⟩]⟩, []⟩]⟩

/-- The C1 scenario tracker after one resolution from F2: one upvalue in F2
(chained to F1's upvalue 0), one upvalue in F1 (targeting F0's local slot
0), none in F0, and F0's local marked captured. -/
def c1_expected (decl : DeclType) (name : LocalName) : ScopeTracker :=
  ⟨⟨[]⟩,
   [⟨⟨[⟨.Function, 0, none, none, [], ⟨none, none, []⟩⟩]⟩, [⟨decl, name, 0, .Upvalue 0⟩]⟩,
    ⟨⟨[⟨.Function, 0, none, none, [], ⟨none, none, []⟩⟩]⟩, [⟨decl, name, 0, .Local 0⟩]⟩,
    ⟨⟨[⟨.Function, 0, none, none, [⟨decl, name, 0, true⟩], ⟨none, none, []⟩⟩]⟩, []⟩]⟩

/-- C1: with a local bound in F0 and frames F0 ⊃ F1 ⊃ F2,
`resolve_or_create_upval` from F2 creates exactly one upvalue in F1
(targeting F0's local slot and setting that local's captured flag) and
exactly one upvalue in F2 (targeting F1's new upvalue), and resolving again
from F2 returns the same upvalue index without creating anything anywhere. -/
theorem upvalue_chaining (decl : DeclType) (name : LocalName) (t : ScopeTracker)
    (h : c1_setup decl name = some t) :
    t = c1_start decl name
  ∧ t.resolve_or_create_upval name
      = .ok (c1_expected decl name, some ⟨decl, name, 0, .Upvalue 0⟩)
  ∧ (c1_expected decl name).resolve_or_create_upval name
      = .ok (c1_expected decl name, some ⟨decl, name, 0, .Upvalue 0⟩)
  ∧ (c1_expected decl name).frames.map (fun f => f.upvalues)
      = [[⟨decl, name, 0, .Upvalue 0⟩], [⟨decl, name, 0, .Local 0⟩], []]
  ∧ (c1_expected decl name).frames.map (fun f => f.scopes.scopes.map Scope.locals)
      = [[[]], [[]], [[⟨decl, name, 0, true⟩]]] := by
  have hsetup : c1_setup decl name = some (c1_start decl name) := rfl
  rw [hsetup] at h
  injection h with h
  subst h
  refine ⟨rfl, ?_, ?_, rfl, rfl⟩
  · simp [ScopeTracker.resolve_or_create_upval, resolve_upval_helper, CallFrame.find_upval,
      find_upval_in, NestedScopes.find_local, find_local_scopes, Scope.find_local,
      find_local_in, NestedScopes.set_captured, set_captured_scopes, set_captured_in,
      CallFrame.create_upval_for_local, CallFrame.create_upval_for_upval, upvalueLimit,
      c1_start, c1_expected, CallFrame.new, NestedScopes.push_scope, NestedScopes.new,
      ControlFlowTracker.new, List.get?]
  · simp [ScopeTracker.resolve_or_create_upval, resolve_upval_helper, CallFrame.find_upval,
      find_upval_in, c1_expected, List.get?]

/-- C1 witness: the chaining theorem at a concrete declaration. -/
theorem upvalue_chaining_witness :
    c1_setup .Immutable (.Symbol 0) = some (c1_start .Immutable (.Symbol 0))
  ∧ (c1_start .Immutable (.Symbol 0)).resolve_or_create_upval (.Symbol 0)
      = .ok (c1_expected .Immutable (.Symbol 0),
             some ⟨.Immutable, .Symbol 0, 0, .Upvalue 0⟩) := by
  have H := upvalue_chaining .Immutable (.Symbol 0) (c1_start .Immutable (.Symbol 0)) rfl
  exact ⟨rfl, H.2.1⟩

theorem emit_instr_errors (g : CodeGenerator) (symbol : Nat) (opcode : OpCode) :
    (g.emit_instr symbol opcode).errors = g.errors := rfl

theorem emit_single_errors (g : CodeGenerator) (symbol : Nat) (opcode : OpCode) (b : Nat) :
    (g.emit_single symbol opcode b).errors = g.errors := rfl

theorem emit_multi2_errors (g : CodeGenerator) (symbol : Nat) (opcode : OpCode) (lo hi : Nat) :
    (g.emit_multi2 symbol opcode lo hi).errors = g.errors := rfl

/-- `emit_const` never touches the accumulated error list (a failure is
returned, not recorded here). -/
theorem emit_const_errors (g : CodeGenerator) (symbol : Nat) (v : Variant) :
    (∀ g', g.emit_const symbol v = .ok g' → g'.errors = g.errors)
  ∧ (∀ g' e, g.emit_const symbol v = .error g' e → g'.errors = g.errors) := by
  unfold CodeGenerator.emit_const
  split
  · next e hp =>
    constructor
    · intro g' h; simp at h
    · intro g' e' h
      simp only [CompileOutcome.error.injEq] at h
      obtain ⟨h1, -⟩ := h
      rw [← h1]
  · next chunk cid hp =>
    constructor
    · intro g' h
      by_cases hc : cid ≤ 255 <;>
        simp [hc] at h <;>
        simp [← h, CodeGenerator.emit_single, CodeGenerator.emit_multi2]
    · intro g' e h
      by_cases hc : cid ≤ 255 <;> simp [hc] at h

mutual

/-- `compile_expr` never touches the accumulated error list. -/
theorem compile_expr_errors (g : CodeGenerator) (symbol : Nat) (e : Expr) :
    (∀ g', compile_expr g symbol e = .ok g' → g'.errors = g.errors)
  ∧ (∀ g' err, compile_expr g symbol e = .error g' err → g'.errors = g.errors) := by
  cases e with
  | Atom a => simpa [compile_expr] using compile_atom_errors g symbol a
  | Primary => constructor <;> intro g' <;> simp [compile_expr]
  | UnaryOp op e => simpa [compile_expr] using compile_unary_op_errors g symbol op e
  | BinaryOp op lhs rhs =>
    simpa [compile_expr] using compile_binary_op_errors g symbol op lhs rhs
  | Assignment => constructor <;> intro g' <;> simp [compile_expr]
  | Declaration => constructor <;> intro g' <;> simp [compile_expr]
  | Tuple => constructor <;> intro g' <;> simp [compile_expr]
  | ObjectCtor => constructor <;> intro g' <;> simp [compile_expr]
  | Block => constructor <;> intro g' <;> simp [compile_expr]
  | FunctionDef => constructor <;> intro g' <;> simp [compile_expr]
termination_by sizeOf e
decreasing_by
  all_goals simp_wf
  all_goals first
    | omega
    | (have h := unaryOp_one_le_sizeOf op; omega)
    | (have h := binaryOp_one_le_sizeOf op; omega)

/-- `compile_atom` never touches the accumulated error list. -/
theorem compile_atom_errors (g : CodeGenerator) (symbol : Nat) (a : Atom) :
    (∀ g', compile_atom g symbol a = .ok g' → g'.errors = g.errors)
  ∧ (∀ g' err, compile_atom g symbol a = .error g' err → g'.errors = g.errors) := by
  cases a with
  | Nil =>
    constructor
    · intro g' h
      simp only [compile_atom, CompileOutcome.ok.injEq] at h
      simp [← h, emit_instr_errors]
    · intro g' err h; simp [compile_atom] at h
  | EmptyTuple =>
    constructor
    · intro g' h
      simp only [compile_atom, CompileOutcome.ok.injEq] at h
      simp [← h, emit_instr_errors]
    · intro g' err h; simp [compile_atom] at h
  | BooleanLiteral b =>
    cases b <;>
      (constructor
       · intro g' h
         simp only [compile_atom, CompileOutcome.ok.injEq] at h
         simp [← h, emit_instr_errors]
       · intro g' err h; simp [compile_atom] at h)
  | IntegerLiteral v => simpa [compile_atom] using emit_const_errors g symbol (.Integer v)
  | FloatLiteral v => simpa [compile_atom] using emit_const_errors g symbol (.Float v)
  | StringLiteral s => simpa [compile_atom] using emit_const_errors g symbol (.InternStr s)
  | Identifier s => constructor <;> intro g' <;> simp [compile_atom]
  | Group e => simpa [compile_atom] using compile_expr_errors g symbol e
termination_by sizeOf a

/-- `compile_unary_op` never touches the accumulated error list. -/
theorem compile_unary_op_errors (g : CodeGenerator) (symbol : Nat) (op : UnaryOp) (e : Expr) :
    (∀ g', compile_unary_op g symbol op e = .ok g' → g'.errors = g.errors)
  ∧ (∀ g' err, compile_unary_op g symbol op e = .error g' err → g'.errors = g.errors) := by
  cases hc : compile_expr g symbol e with
  | fatal => constructor <;> intro g' <;> simp [compile_unary_op, hc]
  | error g1 err =>
    have h1 := (compile_expr_errors g symbol e).2 g1 err hc
    constructor
    · intro g' h; simp [compile_unary_op, hc] at h
    · intro g' err' h
      simp only [compile_unary_op, hc, CompileOutcome.error.injEq] at h
      obtain ⟨h2, -⟩ := h
      rw [← h2]; exact h1
  | ok g1 =>
    have h1 := (compile_expr_errors g symbol e).1 g1 hc
    constructor
    · intro g' h
      cases op <;>
        (simp only [compile_unary_op, hc, CompileOutcome.ok.injEq] at h;
         simp [← h, emit_instr_errors, h1])
    · intro g' err' h
      cases op <;> simp [compile_unary_op, hc] at h
termination_by sizeOf e + 1

/-- `compile_binary_op` never touches the accumulated error list. -/
theorem compile_binary_op_errors (g : CodeGenerator) (symbol : Nat) (op : BinaryOp)
    (lhs rhs : Expr) :
    (∀ g', compile_binary_op g symbol op lhs rhs = .ok g' → g'.errors = g.errors)
  ∧ (∀ g' err, compile_binary_op g symbol op lhs rhs = .error g' err →
        g'.errors = g.errors) := by
  cases hl : compile_expr g symbol lhs with
  | fatal => constructor <;> intro g' <;> simp [compile_binary_op, hl]
  | error g1 err =>
    have h1 := (compile_expr_errors g symbol lhs).2 g1 err hl
    constructor
    · intro g' h; simp [compile_binary_op, hl] at h
    · intro g' err' h
      simp only [compile_binary_op, hl, CompileOutcome.error.injEq] at h
      obtain ⟨h2, -⟩ := h
      rw [← h2]; exact h1
  | ok g1 =>
    have h1 := (compile_expr_errors g symbol lhs).1 g1 hl
    cases hr : compile_expr g1 symbol rhs with
    | fatal => constructor <;> intro g' <;> simp [compile_binary_op, hl, hr]
    | error g2 err =>
      have h2 := (compile_expr_errors g1 symbol rhs).2 g2 err hr
      constructor
      · intro g' h; simp [compile_binary_op, hl, hr] at h
      · intro g' err' h
        simp only [compile_binary_op, hl, hr, CompileOutcome.error.injEq] at h
        obtain ⟨h3, -⟩ := h
        rw [← h3]; exact h2.trans h1
    | ok g2 =>
      have h2 := (compile_expr_errors g1 symbol rhs).1 g2 hr
      constructor
      · intro g' h
        cases op with
        | Logical o => simp [compile_binary_op, hl, hr] at h
        | Arithmetic o =>
          cases o <;>
            (simp only [compile_binary_op, hl, hr, CompileOutcome.ok.injEq] at h;
             simp [← h, emit_instr_errors, h2, h1])
        | Bitwise o =>
          cases o <;>
            (simp only [compile_binary_op, hl, hr, CompileOutcome.ok.injEq] at h;
             simp [← h, emit_instr_errors, h2, h1])
        | Shift o =>
          cases o <;>
            (simp only [compile_binary_op, hl, hr, CompileOutcome.ok.injEq] at h;
             simp [← h, emit_instr_errors, h2, h1])
        | Comparison o =>
          cases o <;>
            (simp only [compile_binary_op, hl, hr, CompileOutcome.ok.injEq] at h;
             simp [← h, emit_instr_errors, h2, h1])
      · intro g' err' h
        cases op with
        | Logical o => simp [compile_binary_op, hl, hr] at h
        | Arithmetic o => cases o <;> simp [compile_binary_op, hl, hr] at h
        | Bitwise o => cases o <;> simp [compile_binary_op, hl, hr] at h
        | Shift o => cases o <;> simp [compile_binary_op, hl, hr] at h
        | Comparison o => cases o <;> simp [compile_binary_op, hl, hr] at h
termination_by sizeOf lhs + sizeOf rhs + 1

end

/-- `compile_stmt` never touches the accumulated error list. -/
theorem compile_stmt_errors (g : CodeGenerator) (symbol : Nat) (stmt : Stmt) :
    (∀ g', compile_stmt g symbol stmt = .ok g' → g'.errors = g.errors)
  ∧ (∀ g' err, compile_stmt g symbol stmt = .error g' err → g'.errors = g.errors) := by
  cases stmt with
  | Echo e => constructor <;> intro g' <;> simp [compile_stmt]
  | Expression e => simpa [compile_stmt] using compile_expr_errors g symbol e
  | Continue l => constructor <;> intro g' <;> simp [compile_stmt]
  | Break l e => constructor <;> intro g' <;> simp [compile_stmt]
  | Return e => constructor <;> intro g' <;> simp [compile_stmt]

/-- C8: a statement whose compilation fails has its error recorded by
`push_stmt` (appended to the accumulated list — which compilation itself
never modifies) and `compile_program` carries on with the remaining
statements; a statement that compiles cleanly adds no error; and `finish`
returns `Ok` with the program exactly when the accumulated list is empty,
otherwise `Err` with every accumulated error. -/
theorem compile_error_accumulation :
    (∀ (g : CodeGenerator) (sym : Nat) (stmt : Stmt) (g' : CodeGenerator) (e : CompileError),
        compile_stmt g sym stmt = .error g' e →
        g.push_stmt ⟨stmt, sym⟩ = some { g' with errors := g'.errors ++ [e] }
      ∧ g'.errors = g.errors
      ∧ ∀ rest, g.compile_program (⟨stmt, sym⟩ :: rest)
          = CodeGenerator.compile_program { g' with errors := g'.errors ++ [e] } rest)
  ∧ (∀ (g : CodeGenerator) (sym : Nat) (stmt : Stmt) (g' : CodeGenerator),
        compile_stmt g sym stmt = .ok g' →
        g.push_stmt ⟨stmt, sym⟩ = some g'
      ∧ g'.errors = g.errors
      ∧ ∀ rest, g.compile_program (⟨stmt, sym⟩ :: rest)
          = CodeGenerator.compile_program g' rest)
  ∧ (∀ g : CodeGenerator, g.finish = .ok g.program ↔ g.errors = [])
  ∧ (∀ g : CodeGenerator, g.errors ≠ [] → g.finish = .error g.errors)
  ∧ (∀ g : CodeGenerator, g.compile_program [] = some g.finish) := by
  refine ⟨?_, ?_, ?_, ?_, ?_⟩
  · intro g sym stmt g' e h
    refine ⟨?_, (compile_stmt_errors g sym stmt).2 g' e h, ?_⟩
    · simp [CodeGenerator.push_stmt, h]
    · intro rest
      simp [CodeGenerator.compile_program, CodeGenerator.push_stmt, h]
  · intro g sym stmt g' h
    refine ⟨?_, (compile_stmt_errors g sym stmt).1 g' h, ?_⟩
    · simp [CodeGenerator.push_stmt, h]
    · intro rest
      simp [CodeGenerator.compile_program, CodeGenerator.push_stmt, h]
  · intro g
    by_cases h : g.errors = [] <;> simp [CodeGenerator.finish, h]
  · intro g h
    simp [CodeGenerator.finish, h]
  · intro g
    simp [CodeGenerator.compile_program]

/-- C8 scenario: a generator whose constant pool is already full
(2^16 entries), so loading a fresh constant fails recoverably. -/
def c8_gen : CodeGenerator :=
  ⟨⟨⟨List.replicate 65536 Variant.Nil, []⟩, []⟩, []⟩

/-- The compile error produced by the full pool at debug symbol 0. -/
def c8_err : CompileError := ⟨.InternalLimit "constant pool limit reached", some 0⟩

/-- A statement needing one fresh constant. -/
def c8_stmt : Stmt := .Expression (.Atom (.IntegerLiteral 1))

theorem const_index_of_replicate (v a : Variant) (h : (a == v) = false) (n : Nat) :
    const_index_of v (List.replicate n a) = none := by
  induction n with
  | zero => rfl
  | succ n ih => simp [List.replicate_succ, const_index_of, h, ih]

/-- The full pool rejects a fresh constant. -/
theorem c8_push_const_fails :
    c8_gen.program.bytecode.push_const (.Integer 1)
      = .error ⟨.InternalLimit "constant pool limit reached", none⟩ := by
  rw [show c8_gen.program.bytecode = (⟨List.replicate 65536 Variant.Nil, []⟩ : Chunk) from rfl]
  rw [Chunk.push_const]
  rw [show (⟨List.replicate 65536 Variant.Nil, []⟩ : Chunk).consts
        = List.replicate 65536 Variant.Nil from rfl]
  rw [const_index_of_replicate _ _ (by decide) 65536]
  rw [List.length_replicate]
  rfl

/-- C8 witness: a concrete failing statement is recorded and `finish`
still succeeds on an empty error list. -/
theorem compile_error_accumulation_witness :
    compile_stmt c8_gen 0 c8_stmt = .error c8_gen c8_err
  ∧ c8_gen.push_stmt ⟨c8_stmt, 0⟩ = some { c8_gen with errors := c8_gen.errors ++ [c8_err] }
  ∧ c8_gen.finish = .ok c8_gen.program := by
  have h1 : compile_stmt c8_gen 0 c8_stmt = .error c8_gen c8_err := by
    show compile_stmt c8_gen 0 (.Expression (.Atom (.IntegerLiteral 1))) = .error c8_gen c8_err
    simp only [compile_stmt, compile_expr, compile_atom]
    rw [CodeGenerator.emit_const]
    rw [c8_push_const_fails]
    rfl
  exact ⟨h1, (compile_error_accumulation.1 c8_gen 0 c8_stmt c8_gen c8_err h1).1,
         (compile_error_accumulation.2.2.1 c8_gen).mpr rfl⟩
